import Mathlib

/-!
# Verification of the TwiCommon dialogue collector (`src/twitter.py`)

Shallow embedding of the thread-resolution engine of `twitter.py`:
text is modelled as `List Char` (a Python `str`), each `re.sub` call is
modelled by a dedicated scanner implementing exactly the semantics of its
pattern (leftmost, non-overlapping, with Python's greedy/lazy rules),
mutable state is threaded explicitly, and Python runtime errors
(IndexError / TypeError / ValueError) are modelled with `Except`.

External collaborators (the MeCab tagger, the tweepy lookup service,
`unicodedata.normalize('NFKC', ...)`) are parameters of the model, as the
spec scopes them out; everything else is translated from the source.
-/

namespace TwiCommon

abbrev Chars := List Char

/-- Python `\s` (re whitespace). After the alphabet restriction in
`normalize` only `' '` and `'\n'` can actually occur, so the ASCII set is
exact on every string these patterns are applied to; the full Unicode
table lives in the external regex engine. -/
def pyIsSpace (c : Char) : Bool :=
  c = ' ' || c = '\t' || c = '\n' || c = '\r' || c = '\x0b' || c = '\x0c'

/-- Fueled one-pass global substitution: the matcher `m` reports a match at
the head of the remaining input as `(replacement, rest-after-match)`.
Mirrors `re.sub`'s left-to-right non-overlapping scan.  Every matcher used
in this file consumes at least one character, so fuel `= length` suffices. -/
def gsubF (m : Chars → Option (Chars × Chars)) : Nat → Chars → Chars
  | 0, l => l
  | _ + 1, [] => []
  | fuel + 1, c :: cs =>
    match m (c :: cs) with
    | some (r, rest) => r ++ gsubF m fuel rest
    | none => c :: gsubF m fuel cs

def gsub (m : Chars → Option (Chars × Chars)) (l : Chars) : Chars :=
  gsubF m l.length l

/-- Longest parse of `(\s*c)+` for characters satisfying `p`: consumes
whitespace-separated `p`-characters (at least one) and returns the rest. -/
def munchSpaced (p : Char → Bool) : Chars → Option Chars
  | [] => none
  | c :: cs =>
    if pyIsSpace c then munchSpaced p cs
    else if p c then
      match munchSpaced p cs with
      | some r => some r
      | none => some cs
    else none

/-- Matcher for the pattern `X(\s*X)+` (a run of at least two `p`-characters
separated by whitespace), replaced by `repl`. -/
def spacedRunMatcher (p : Char → Bool) (repl : Chars) : Chars → Option (Chars × Chars)
  | [] => none
  | c :: cs =>
    if p c then
      match munchSpaced p cs with
      | some rest => some (repl, rest)
      | none => none
    else none

def isEmotion (c : Char) : Bool := c = '笑' || c = '泣' || c = '汗'

/-- Scanner for line 281, `[\(\[][^笑泣汗]*?[\)\]]`: from an opening
bracket, the lazy star reaches the first closing bracket, failing if an
emotion ideograph intervenes. Returns the rest after the closing bracket. -/
def findClose : Chars → Option Chars
  | [] => none
  | c :: cs =>
    if c = ')' || c = ']' then some cs
    else if isEmotion c then none
    else findClose cs

def m281 : Chars → Option (Chars × Chars)
  | [] => none
  | c :: cs =>
    if c = '(' || c = '[' then
      match findClose cs with
      | some rest => some ([' '], rest)
      | none => none
    else none

/-- Line 282: the allowed alphabet `[ぁ-んァ-ヶ一-龠々ー～〜、。!?,.]`. -/
def allowedChar (c : Char) : Bool :=
  (0x3041 ≤ c.toNat && c.toNat ≤ 0x3093) ||
  (0x30A1 ≤ c.toNat && c.toNat ≤ 0x30F6) ||
  (0x4E00 ≤ c.toNat && c.toNat ≤ 0x9FA0) ||
  c = '々' || c = 'ー' || c = '～' || c = '〜' || c = '、' || c = '。' ||
  c = '!' || c = '?' || c = ',' || c = '.'

def mapChars (f : Char → Char) : Chars → Chars
  | [] => []
  | c :: cs => f c :: mapChars f cs

def expandChars (f : Char → Chars) : Chars → Chars
  | [] => []
  | c :: cs => f c ++ expandChars f cs

/-- Line 287, `、(\s*、)+|。(\s*。)+` → `...`. -/
def m287 : Chars → Option (Chars × Chars)
  | [] => none
  | c :: cs =>
    if c = '、' then
      match munchSpaced (· = '、') cs with
      | some rest => some (['.', '.', '.'], rest)
      | none => none
    else if c = '。' then
      match munchSpaced (· = '。') cs with
      | some rest => some (['.', '.', '.'], rest)
      | none => none
    else none

/-- Lines 289/291, `!+` → `！` and `\?+` → `？` (also a single occurrence). -/
def asciiRunMatcher (a : Char) (repl : Chars) : Chars → Option (Chars × Chars)
  | [] => none
  | c :: cs => if c = a then some (repl, cs.dropWhile (· = a)) else none

/-- Line 307, alternative `(！\s*)+？`: called after the initial `！` was
consumed; accepts further whitespace/`！` and ends at a `？`. -/
def afterExcl : Chars → Option Chars
  | [] => none
  | c :: cs =>
    if pyIsSpace c then afterExcl cs
    else if c = '！' then afterExcl cs
    else if c = '？' then some cs
    else none

/-- Line 307, alternative `(？\s*)+！`, after the initial `？`. -/
def afterQues : Chars → Option Chars
  | [] => none
  | c :: cs =>
    if pyIsSpace c then afterQues cs
    else if c = '？' then afterQues cs
    else if c = '！' then some cs
    else none

/-- Line 307, `((！\s*)+？|(？\s*)+！)(\s*[！？])*` → `!?`. -/
def m307 : Chars → Option (Chars × Chars)
  | [] => none
  | c :: cs =>
    let core :=
      if c = '！' then afterExcl cs
      else if c = '？' then afterQues cs
      else none
    match core with
    | none => none
    | some rest =>
      let rest2 :=
        match munchSpaced (fun d => d = '！' || d = '？') rest with
        | some r => r
        | none => rest
      some (['!', '?'], rest2)

/-- Line 309, `、\s*([笑泣汗])\s*。` → `" \1。"`. -/
def m309 : Chars → Option (Chars × Chars)
  | [] => none
  | c :: cs =>
    if c = '、' then
      match cs.dropWhile pyIsSpace with
      | e :: es =>
        if isEmotion e then
          match es.dropWhile pyIsSpace with
          | '。' :: us => some ([' ', e, '。'], us)
          | _ => none
        else none
      | [] => none
    else none

/-- Line 310, `(。|！|？|!\?)\s*([笑泣汗])\s*。` → `" \2\1"`. -/
def m310 (l : Chars) : Option (Chars × Chars) :=
  let bnd : Option (Chars × Chars) :=
    match l with
    | '。' :: r => some (['。'], r)
    | '！' :: r => some (['！'], r)
    | '？' :: r => some (['？'], r)
    | '!' :: '?' :: r => some (['!', '?'], r)
    | _ => none
  match bnd with
  | none => none
  | some (b, r) =>
    match r.dropWhile pyIsSpace with
    | e :: es =>
      if isEmotion e then
        match es.dropWhile pyIsSpace with
        | '。' :: us => some (' ' :: e :: b, us)
        | _ => none
      else none
    | [] => none

/-- Line 315, `(\.\s*)+` → `" ... "`: after the first dot, greedily consume
further dots and whitespace (the trailing `\s*` of the last group included). -/
def dotRun : Chars → Chars
  | [] => []
  | c :: cs =>
    if pyIsSpace c then dotRun cs
    else if c = '.' then dotRun cs
    else c :: cs

def m315 : Chars → Option (Chars × Chars)
  | [] => none
  | c :: cs =>
    if c = '.' then some ([' ', '.', '.', '.', ' '], dotRun cs) else none

/-- Line 318, `!\?` → `" !?\n"`. -/
def m318 : Chars → Option (Chars × Chars)
  | '!' :: '?' :: r => some ([' ', '!', '?', '\n'], r)
  | _ => none

/-- Line 320, `\n(\s*[～ー])+` → `"\n"`. -/
def m320 : Chars → Option (Chars × Chars)
  | [] => none
  | c :: cs =>
    if c = '\n' then
      match munchSpaced (fun d => d = '～' || d = 'ー') cs with
      | some rest => some (['\n'], rest)
      | none => none
    else none

/-- Line 322: the punctuation class `[。、！？!?ー～]`. -/
def leadPunct (c : Char) : Bool :=
  c = '。' || c = '、' || c = '！' || c = '？' || c = '!' || c = '?' ||
  c = 'ー' || c = '～'

/-- One iteration `[\s\n]*[。、！？!?ー～]+` of the anchored strip on
line 322 (`[\s\n]` is just `\s`); `none` when no punctuation follows. -/
def stripIter : Chars → Option Chars
  | [] => none
  | c :: cs =>
    if pyIsSpace c then stripIter cs
    else if leadPunct c then some (cs.dropWhile leadPunct)
    else none

def stripLPF : Nat → Chars → Chars
  | 0, l => l
  | fuel + 1, l =>
    match stripIter l with
    | some r => stripLPF fuel r
    | none => l

/-- Line 322, `^([\s\n]*[。、！？!?ー～]+)+` → `""` (anchored, one sub). -/
def stripLP (l : Chars) : Chars := stripLPF (l.length + 1) l

/-- Number of consecutive further copies of `u` at the head of the input
(greedy `\1{3,}` on line 323).  Fuel bounds the count. -/
def repeatCount (u : Chars) : Nat → Chars → Nat
  | 0, _ => 0
  | fuel + 1, l =>
    if u.isPrefixOf l then 1 + repeatCount u fuel (l.drop u.length) else 0

/-- Line 323, `(.+?)\1{3,}` → `\1\1\1`: lazy unit (shortest first, no
newline, `.` does not match `\n`), greedy repeat count. `len` iterates the
candidate unit lengths upward. -/
def m323Go (l : Chars) : Nat → Nat → Option (Chars × Chars)
  | _, 0 => none
  | len, tries + 1 =>
    if len * 4 ≤ l.length then
      let u := l.take len
      if u.all (· ≠ '\n') then
        let k := 1 + repeatCount u (l.length) (l.drop len)
        if 4 ≤ k then some (u ++ u ++ u, l.drop (len * k))
        else m323Go l (len + 1) tries
      else m323Go l (len + 1) tries
    else none

def m323 (l : Chars) : Option (Chars × Chars) :=
  m323Go l 1 (l.length + 1)

/-- Stages 281–300 of `QueueListener.normalize`, the substitutions before
the unconditional `line += "。"`; the comment on each stage names the
source line of the corresponding `re.sub`. -/
def normalizePre (line : Chars) : Chars :=
  -- 281: strip bracketed annotations without an emotion ideograph
  let line := gsub m281 line
  -- 282: restrict to the allowed alphabet
  let line := mapChars (fun c => if allowedChar c then c else ' ') line
  -- 284/285/286: half-width punctuation to full-width
  let line := mapChars (fun c => if c = ',' then '、' else c) line
  let line := mapChars (fun c => if c = '.' then '。' else c) line
  let line := mapChars (fun c => if c = '〜' then '～' else c) line
  -- 287: runs of 、 or 。 become a three-dot marker
  let line := gsub m287 line
  -- 289–292: collapse exclamation/question runs
  let line := gsub (asciiRunMatcher '!' ['！']) line
  let line := gsub (spacedRunMatcher (· = '！') ['！']) line
  let line := gsub (asciiRunMatcher '?' ['？']) line
  let line := gsub (spacedRunMatcher (· = '？') ['？']) line
  -- 294–300: collapse emphasis-mark and emotion-mark runs
  let line := gsub (spacedRunMatcher (· = '～') ['～']) line
  let line := gsub (spacedRunMatcher (· = 'ー') ['ー']) line
  let line := gsub (spacedRunMatcher (· = 'っ') ['っ']) line
  let line := gsub (spacedRunMatcher (· = 'ッ') ['ッ']) line
  let line := gsub (spacedRunMatcher (· = '笑') ['笑']) line
  let line := gsub (spacedRunMatcher (· = '泣') ['泣']) line
  gsub (spacedRunMatcher (· = '汗') ['汗']) line

/-- Stages 303–323 of `QueueListener.normalize`, the substitutions after
the period append. -/
def normalizePost (line : Chars) : Chars :=
  -- 303: merge mixed 、/。 runs
  let line := gsub (spacedRunMatcher (fun c => c = '、' || c = '。') ['。']) line
  -- 305/306: dominant-marker merge
  let line := gsub (spacedRunMatcher (fun c => c = '。' || c = '、' || c = '！') ['！']) line
  let line := gsub (spacedRunMatcher (fun c => c = '。' || c = '、' || c = '？') ['？']) line
  -- 307: combined ！？ sequences
  let line := gsub m307 line
  -- 309/310: re-attach isolated emotion marks
  let line := gsub m309 line
  let line := gsub m310 line
  -- 312/313: boundary separators
  let line := expandChars (fun c => if c = '、' then [' ', '、', ' '] else [c]) line
  let line := expandChars (fun c => if c = '。' then [' ', '。', '\n'] else [c]) line
  -- 315–318
  let line := gsub m315 line
  let line := expandChars (fun c => if c = '！' then [' ', '！', '\n'] else [c]) line
  let line := expandChars (fun c => if c = '？' then [' ', '？', '\n'] else [c]) line
  let line := gsub m318 line
  -- 320: drop emphasis marks hanging after a newline
  let line := gsub m320 line
  -- 322: strip a leading punctuation-only run
  let line := stripLP line
  -- 323: collapse 4+ immediate repetitions to 3
  gsub m323 line

/-- `QueueListener.normalize` (lines 275–325): the pre-append stages, the
unconditional `line += "。"` of line 302, then the post-append stages. -/
def normalize (line : Chars) : Chars :=
  normalizePost (normalizePre line ++ ['。'])

/-! ## Lexical guard (`QueueListener.check`, lines 249–264) and
`del_username` (line 247) -/

def isAsciiAlnum (c : Char) : Bool :=
  ('a' ≤ c && c ≤ 'z') || ('A' ≤ c && c ≤ 'Z') || ('0' ≤ c && c ≤ '9')

/-- One URL-scheme prefix with at least one following non-space character.
In the pattern on line 256 every group after `(\S+)` is optional and can be
empty, so `search` succeeds exactly when some position starts with
`ftp://`, `http://` or `https://` followed by one `\S` character. -/
def urlSchemeAt (scheme : Chars) (l : Chars) : Bool :=
  scheme.isPrefixOf l &&
    match l.drop scheme.length with
    | c :: _ => !pyIsSpace c
    | [] => false

def urlAt (l : Chars) : Bool :=
  urlSchemeAt ['f', 't', 'p', ':', '/', '/'] l ||
  urlSchemeAt ['h', 't', 't', 'p', ':', '/', '/'] l ||
  urlSchemeAt ['h', 't', 't', 'p', 's', ':', '/', '/'] l

def hasUrl : Chars → Bool
  | [] => false
  | c :: cs => urlAt (c :: cs) || hasUrl cs

/-- Line 259: the word class `[ー゛゜々ヾヽぁ-ヶ一-龠a-zA-Z0-9_]`. -/
def hashWordAll (c : Char) : Bool :=
  c = 'ー' || c = '゛' || c = '゜' || c = '々' || c = 'ヾ' || c = 'ヽ' ||
  (0x3041 ≤ c.toNat && c.toNat ≤ 0x30F6) ||
  (0x4E00 ≤ c.toNat && c.toNat ≤ 0x9FA0) ||
  isAsciiAlnum c || c = '_'

/-- Line 259: the core class `[ー゛゜々ヾヽぁ-ヶ一-龠a-zA-Z]` (no digit, no
underscore); it is a subset of `hashWordAll`. -/
def hashWordCore (c : Char) : Bool :=
  c = 'ー' || c = '゛' || c = '゜' || c = '々' || c = 'ヾ' || c = 'ヽ' ||
  (0x3041 ≤ c.toNat && c.toNat ≤ 0x30F6) ||
  (0x4E00 ≤ c.toNat && c.toNat ≤ 0x9FA0) ||
  ('a' ≤ c && c ≤ 'z') || ('A' ≤ c && c ≤ 'Z')

/-- Line 259: a character of the negated pre-context class
`[^ーー゛゜々ヾヽぁ-ヶ一-龠a-zA-Z0-9&_/>]` blocks a hashtag match when it
is NOT one of these. -/
def hashBlock (c : Char) : Bool :=
  hashWordAll c || c = '&' || c = '/' || c = '>'

/-- After `#`/`＃` the tag body `[W]*[Core]+[W]*` matches iff the maximal
`hashWordAll` run contains a `hashWordCore` character. -/
def hashTagBody (cs : Chars) : Bool :=
  (cs.takeWhile hashWordAll).any hashWordCore

/-- `search` for the hashtag pattern: a `#`/`＃` at the string start or
preceded by one non-blocking character, followed by a matching tag body. -/
def hashScan : Option Char → Chars → Bool
  | _, [] => false
  | prev, c :: cs =>
    (if (c = '#' || c = '＃') &&
        (match prev with | none => true | some p => !hashBlock p) then
      hashTagBody cs
    else false) || hashScan (some c) cs

def hasHashtag (l : Chars) : Bool := hashScan none l

/-- `QueueListener.check` (lines 249–264): reject text containing a URL,
a hashtag, or any ASCII alphanumeric character. -/
def check (text : Chars) : Bool :=
  if hasUrl text then false
  else if hasHashtag text then false
  else if text.any isAsciiAlnum then false
  else true

/-- Python `\w` on `str` (Unicode word characters): ASCII alphanumerics,
underscore, and — for the character repertoire this program meets — the
word characters of the CJK blocks (the Unicode table of the external regex
engine, restricted to U+3000–U+30FF, U+4E00–U+9FFF and the full-width
forms). -/
def pyIsWord (c : Char) : Bool :=
  isAsciiAlnum c || c = '_' ||
  (0x3005 ≤ c.toNat && c.toNat ≤ 0x3007) ||
  (0x3021 ≤ c.toNat && c.toNat ≤ 0x3029) ||
  (0x3031 ≤ c.toNat && c.toNat ≤ 0x3035) ||
  (0x3038 ≤ c.toNat && c.toNat ≤ 0x303C) ||
  (0x3041 ≤ c.toNat && c.toNat ≤ 0x3096) ||
  (0x309D ≤ c.toNat && c.toNat ≤ 0x309F) ||
  (0x30A1 ≤ c.toNat && c.toNat ≤ 0x30FA) ||
  (0x30FC ≤ c.toNat && c.toNat ≤ 0x30FF) ||
  (0x4E00 ≤ c.toNat && c.toNat ≤ 0x9FFF) ||
  (0xFF10 ≤ c.toNat && c.toNat ≤ 0xFF19) ||
  (0xFF21 ≤ c.toNat && c.toNat ≤ 0xFF3A) ||
  (0xFF41 ≤ c.toNat && c.toNat ≤ 0xFF5A) ||
  (0xFF66 ≤ c.toNat && c.toNat ≤ 0xFFBE)

/-- The `\s(@|＠)\w+` form of the mention pattern (line 247); the matched
whitespace character is removed with the mention. -/
def mDelUser : Chars → Option (Chars × Chars)
  | c :: a :: rest =>
    if pyIsSpace c && (a = '@' || a = '＠') &&
        !(rest.takeWhile pyIsWord).isEmpty then
      some ([], rest.dropWhile pyIsWord)
    else none
  | _ => none

/-- `QueueListener.del_username` (line 247),
`re.sub("(^|\s)(@|＠)(\w+)", "", text)`: the `^` alternative can only fire
at the string start, the rest is a global scan. -/
def del_username (text : Chars) : Chars :=
  let t :=
    match text with
    | a :: rest =>
      if (a = '@' || a = '＠') && !(rest.takeWhile pyIsWord).isEmpty then
        rest.dropWhile pyIsWord
      else text
    | [] => []
  gsub mDelUser t

/-! ## Tokenizer adapter (`QueueListener.parse`, lines 327–389)

The MeCab tagger itself is the external collaborator: a run of the model
carries `tagger : String → List Node` as a parameter.  `Node.featureRaw`
is `node.feature`, the raw comma-separated feature string. -/

structure Node where
  surface : String
  featureRaw : String
deriving Repr, DecidableEq

/-- Python `s.split(sep)` for a one-character separator (empty pieces
kept; `"".split(',') = ['']`). -/
def splitCharSep (sep : Char) : Chars → List Chars
  | [] => [[]]
  | c :: cs =>
    if c = sep then [] :: splitCharSep sep cs
    else
      match splitCharSep sep cs with
      | t :: ts => (c :: t) :: ts
      | [] => [[c]]

/-- `node.feature.split(',')` (line 338). -/
def splitComma (s : String) : List String :=
  (splitCharSep ',' s.data).map String.mk

/-- The category-classification of one node (lines 343–383).  `feature.getD
1 ""` stands for `feature[1]`; the tokenizer contract guarantees the
feature vector is long enough for the three categories that read it. -/
def nodeToken (n : Node) : String :=
  let feature := splitComma n.featureRaw
  let f0 := feature.headD ""
  let f1 := feature.getD 1 ""
  if f0 = "名詞" then
    if f1 ∈ ["一般", "固有名詞", "サ変接続", "形容動詞語幹"] then "noun_main"
    else if f1 = "代名詞" then "pronoun"
    else "noun_sub"
  else if f0 = "動詞" then
    if f1 = "自立" then "verb_main" else "verb_sub"
  else if f0 = "形容詞" then
    if f1 = "自立" then "adjective_main" else "adjective_sub"
  else if f0 = "副詞" then "adverb"
  else if f0 = "助詞" then "particle"
  else if f0 = "助動詞" then "auxiliary_verb"
  else if f0 = "接続詞" then "conjunction"
  else if f0 = "接頭詞" then "prefix"
  else if f0 = "フィラー" then "filler"
  else if f0 = "感動詞" then "impression_verb"
  else if f0 = "連体詞" then "pre_noun"
  else if n.surface = "..." then "three_dots"
  else if n.surface ∈ ["。", "！", "？", "!?"] then "phrase_point"
  else if n.surface = "、" then "reading_point"
  else "other"

/-- Skip boundary nodes (line 339), keep `(surface, token)` of the rest. -/
def parseNodes : List Node → List String × List String
  | [] => ([], [])
  | n :: rest =>
    let feature := splitComma n.featureRaw
    if feature.headD "" = "BOS/EOS" || n.featureRaw ∈ [".", "..", "!", "?"] then
      parseNodes rest
    else
      let r := parseNodes rest
      (n.surface :: r.1, nodeToken n :: r.2)

/-- `QueueListener.parse` (lines 327–389). -/
def parse (tagger : String → List Node) (line : String) :
    List String × List String :=
  parseNodes (tagger line)

/-! ## Filters (`need_check`, `needless_check`, `dump_filter`,
`length_check`, lines 391–433).  The configuration dictionaries are
insertion-ordered association lists; `dictGet` is `d.get(k)` with a
missing key read as falsy. -/

def dictGet (d : List (String × Bool)) (k : String) : Bool :=
  match d.find? (fun kv => kv.1 = k) with
  | some kv => kv.2
  | none => false

def need_check (need : List (String × Bool)) (parts : List String) : Bool :=
  need.all (fun kv => !kv.2 || parts.contains kv.1)

def needless_check (needless : List (String × Bool)) (parts : List String) : Bool :=
  parts.all (fun p => !dictGet needless p)

def dump_filter (dump : List (String × Bool)) :
    List String → List String → List String × List String
  | w :: ws, p :: ps =>
    let r := dump_filter dump ws ps
    if dictGet dump p then (w :: r.1, p :: r.2) else r
  | _, _ => ([], [])

def length_check (lenMin lenMax : Int) (words : List String) : Bool :=
  lenMin ≤ (words.length : Int) && (words.length : Int) ≤ lenMax

/-! ## Checkpoint serialization (`save_check_point` / `load_check_point`,
lines 435–458).  The file content is modelled as the character list the
program writes; `tweet_ids` is a Python set, modelled as an
insertion-ordered duplicate-free list. -/

inductive PyErr where
  | indexError
  | typeError
  | valueError
deriving Repr, DecidableEq

instance {ε α : Type} [DecidableEq ε] [DecidableEq α] :
    DecidableEq (Except ε α) := fun x y =>
  match x, y with
  | .ok a, .ok b =>
    if h : a = b then .isTrue (by rw [h])
    else .isFalse (fun hh => by cases hh; exact h rfl)
  | .error a, .error b =>
    if h : a = b then .isTrue (by rw [h])
    else .isFalse (fun hh => by cases hh; exact h rfl)
  | .ok _, .error _ => .isFalse (fun hh => by cases hh)
  | .error _, .ok _ => .isFalse (fun hh => by cases hh)

def digitChar (d : Nat) : Char := Char.ofNat (48 + d)

/-- Decimal digits of `n`, most significant first; fueled so that it
reduces definitionally (`fuel ≥ n` always suffices). -/
def natCharsF : Nat → Nat → Chars
  | 0, n => [digitChar n]
  | fuel + 1, n =>
    if n < 10 then [digitChar n]
    else natCharsF fuel (n / 10) ++ [digitChar (n % 10)]

/-- `str(n)` for `n ≥ 0`. -/
def natChars (n : Nat) : Chars := natCharsF n n

/-- Python `str` on an int. -/
def intChars (i : Int) : Chars :=
  if i < 0 then '-' :: natChars i.natAbs else natChars i.toNat

def digitVal (c : Char) : Nat := c.toNat - 48

def natOfDigits (l : Chars) : Nat :=
  l.foldl (fun a c => a * 10 + digitVal c) 0

/-- Python `int(token)` on a whitespace-free token (sign, then digits). -/
def pyIntOfToken (t : Chars) : Option Int :=
  match t with
  | '-' :: ds =>
    if !ds.isEmpty && ds.all Char.isDigit then some (-(natOfDigits ds : Int))
    else none
  | '+' :: ds =>
    if !ds.isEmpty && ds.all Char.isDigit then some (natOfDigits ds : Int)
    else none
  | ds =>
    if !ds.isEmpty && ds.all Char.isDigit then some (natOfDigits ds : Int)
    else none

/-- Python `str.strip()`. -/
def pyStrip (l : Chars) : Chars :=
  ((l.dropWhile pyIsSpace).reverse.dropWhile pyIsSpace).reverse

/-- Python `str.split()` (no argument): split on whitespace runs. -/
def pySplitGo : Chars → Chars → List Chars
  | [], acc => if acc.isEmpty then [] else [acc.reverse]
  | c :: cs, acc =>
    if pyIsSpace c then
      if acc.isEmpty then pySplitGo cs [] else acc.reverse :: pySplitGo cs []
    else pySplitGo cs (c :: acc)

def pySplit (l : Chars) : List Chars := pySplitGo l []

/-- `' '.join(tokens)`. -/
def joinSep (sep : Chars) : List Chars → Chars
  | [] => []
  | [t] => t
  | t :: ts => t ++ sep ++ joinSep sep ts

/-- Python-set insertion: `s.add(x)`. -/
def pySetAdd (s : List Int) (x : Int) : List Int :=
  if x ∈ s then s else s ++ [x]

/-- `set(xs)` for a list of ints. -/
def pySetOfList (xs : List Int) : List Int :=
  xs.foldl pySetAdd []

/-- The checkpoint record written by `save_check_point` (lines 442–443):
line 1 is `str(dump_count)`, line 2 the space-joined seen ids. -/
def checkPointContent (dump_count : Int) (tweet_ids : List Int) : Chars :=
  intChars dump_count ++ '\n' :: joinSep [' '] (tweet_ids.map intChars)

def mapIntAll : List Chars → Option (List Int)
  | [] => some []
  | t :: ts =>
    match pyIntOfToken t, mapIntAll ts with
    | some i, some is => some (i :: is)
    | _, _ => none

/-- `load_check_point`'s parse of an existing readable checkpoint file
(lines 456–457): `int(readline().strip())`, then
`set(map(int, readline().strip().split()))`.  A malformed file raises
`ValueError`. -/
def load_check_point_content (l : Chars) : Except PyErr (Int × List Int) :=
  let line1 := l.takeWhile (· ≠ '\n')
  let rest := (l.dropWhile (· ≠ '\n')).drop 1
  let line2 := rest.takeWhile (· ≠ '\n')
  match pyIntOfToken (pyStrip line1) with
  | none => .error .valueError
  | some dc =>
    match mapIntAll (pySplit (pyStrip line2)) with
    | none => .error .valueError
    | some ids => .ok (dc, pySetOfList ids)

/-! ## The thread resolver (`QueueListener`, lines 25–239)

State machine of `on_status` / `lookup` / `dump_data`.  The external
collaborators — the MeCab tagger, `unicodedata.normalize('NFKC', ·)` and
the bulk-lookup service `api.statuses_lookup` — are carried as function
fields of the state.  Python runtime errors are `Except.error`. -/

/-- A streamed status as `on_status` reads it (line 153–154):
`in_reply_to` is `raw.get('in_reply_to_status_id')` when it is an int. -/
structure RawStatus where
  in_reply_to : Option Int
  user : Int
  text : String
  id : Int
deriving DecidableEq

/-- The text slot `tweet[2]` of a lookup-dictionary record.  It starts as
the raw string; `tweet[2], parts = self.parse(...)` (line 194) and the
dump filter (line 197) overwrite the shared list slot with a word list —
Python mutates the record in place. -/
inductive TextVal where
  | raw (s : Chars)
  | words (ws : List String)
deriving DecidableEq

/-- A value of `replys_dic` (line 181):
`[reply.in_reply_to_status_id, reply.user.id, text, reply.id]`. -/
structure DicRec where
  parent : Option Int
  user : Int
  text : TextVal
  id : Int
deriving DecidableEq

/-- One chain element `[tweet, parts]` as stored in `queue`: the tweet's
text slot already holds the dump-filtered words. -/
structure Entry where
  parent : Option Int
  user : Int
  words : List String
  id : Int
  parts : List String
deriving DecidableEq, Inhabited

abbrev Chain := List Entry

/-- The filter/output configuration read in `__init__` (lines 50–55). -/
structure Config where
  need : List (String × Bool)
  needless : List (String × Bool)
  dump : List (String × Bool)
  lenMin : Int
  lenMax : Int
  outputPart : Bool

/-- The mutable state of a `QueueListener`, plus its external
collaborators and — as specification-only history — the list of chains
handed to `dump_data` (in the chronological order they are written). -/
structure Listener where
  cfg : Config
  tagger : String → List Node
  nfkc : String → String
  api : List (Option Int) → List RawStatus
  tweet_ids : List Int
  queue : List Chain
  BATCH_SIZE : Nat
  dump_count : Int
  tweetSink : List String
  replySink : List String
  partSink : List String
  dumpedChains : List Chain

/-- `dellist` (line 20). -/
def dellist {α : Type} (items : List α) (indices : List Nat) : List α :=
  items.enum.filterMap (fun p => if p.1 ∈ indices then none else some p.2)

/-- `' '.join(words)`. -/
def sjoin (ws : List String) : String :=
  String.mk (joinSep [' '] (ws.map String.data))

/-- `QueueListener.talker_check` (lines 266–273):
`talker != q[idx][-1][0][1] and (len(q[idx]) == 1 or talker == q[idx][-2][0][1])`,
with Python's short-circuit evaluation and IndexError on a bad index. -/
def talker_check (queue : List Chain) (talker : Int) (idx : Nat) :
    Except PyErr Bool :=
  match queue[idx]? with
  | none => .error .indexError
  | some ch =>
    match ch.getLast? with
    | none => .error .indexError
    | some lastE =>
      if talker = lastE.user then .ok false
      else if ch.length = 1 then .ok true
      else
        match ch[ch.length - 2]? with
        | none => .error .indexError
        | some sndLast => .ok (decide (talker = sndLast.user))

/-- What one `dump_data(dialog)` call (lines 214–239) emits: the aligned
prompt/response lines, the optional part-of-speech lines, the
`dump_count` increment, and the chronological chain itself. -/
structure DumpOut where
  prompts : List String
  replies : List String
  partLines : List String
  inc : Nat
  chrono : Chain

/-- `QueueListener.dump_data` (lines 214–239): reverse to chronological
order, then for `i in range(len(tweets)-1)` write utterance `i` to the
tweet sink and utterance `i+1` to the reply sink; part lines only when
`output['part']`; `dump_count += len(tweets)-1`. -/
def dump_data (outputPart : Bool) (dialog : Chain) : DumpOut :=
  let tweets := dialog.reverse
  let n := tweets.length
  { prompts := (List.range (n - 1)).map (fun i => sjoin (tweets.getD i default).words)
  , replies := (List.range (n - 1)).map (fun i => sjoin (tweets.getD (i + 1) default).words)
  , partLines :=
      if outputPart then
        (List.range (n - 1)).map (fun i => sjoin (tweets.getD i default).parts)
      else []
  , inc := n - 1
  , chrono := tweets }

/-- `ids = [dialogs[-1][0][0] for dialogs in self.queue]` (lines 176–178);
`dialogs[-1]` on an empty chain would raise. -/
def collectIds : List Chain → Except PyErr (List (Option Int))
  | [] => .ok []
  | ch :: rest =>
    match ch.getLast? with
    | none => .error .indexError
    | some e =>
      match collectIds rest with
      | .ok r => .ok (e.parent :: r)
      | .error er => .error er

/-- `str(x)` for the collected parent-id slots (`str(None) = "None"`). -/
def strOfOptInt : Option Int → Chars
  | some i => intChars i
  | none => ['N', 'o', 'n', 'e']

/-- In-place mutation of the shared record stored under `k`. -/
def dicUpdate (dic : List (Chars × DicRec)) (k : Chars) (v : DicRec) :
    List (Chars × DicRec) :=
  dic.map (fun kv => if kv.1 = k then (kv.1, v) else kv)

/-- The loop state of one `lookup` call: the listener fields it mutates,
plus `replys_dic` and `dump_idxs`. -/
structure LoopSt where
  queue : List Chain
  tweet_ids : List Int
  dic : List (Chars × DicRec)
  dump_idxs : List Nat
  tweetSink : List String
  replySink : List String
  partSink : List String
  dump_count : Int
  dumpedChains : List Chain

/-- The chain element `lookup` appends for an accepted parent whose raw
(mention-stripped) text is `s`. -/
def lookupEntry (cfg : Config) (tagger : String → List Node)
    (rec : DicRec) (s : Chars) : Entry :=
  let wp := parse tagger (String.mk (normalize s))
  let dwp := dump_filter cfg.dump wp.1 wp.2
  { parent := rec.parent, user := rec.user
  , words := dwp.1, id := rec.id, parts := dwp.2 }

/-- Lines 189–202 of `lookup`: the `if tweet:` body.  `check(tweet[2])` on
an already-parsed record raises (`re.search` on a list); the parse and the
dump filter overwrite the shared dictionary record in place; the chain is
extended whenever all filters and the alternation check pass, and
`interrupte` is cleared only when the new parent is itself a reply whose
id is not yet in the seen set (the id is added afterwards either way). -/
def lookupExtend (cfg : Config) (tagger : String → List Node) (key : Chars)
    (tweet? : Option DicRec) (st : LoopSt) (idx : Nat) :
    Except PyErr (LoopSt × Bool) :=
  match tweet? with
  | none => .ok (st, true)
  | some rec =>
    match rec.text with
    | .words _ => .error .typeError -- re.search on a list (line 256)
    | .raw s =>
      if !(check s) then .ok (st, true)
      else
        match talker_check st.queue rec.user idx with
        | .error e => .error e
        | .ok t =>
          if !t then .ok (st, true)
          else
            -- tweet[2], parts = self.parse(self.normalize(tweet[2]))
            let wp := parse tagger (String.mk (normalize s))
            let st1 := { st with
              dic := dicUpdate st.dic key { rec with text := .words wp.1 } }
            if !(need_check cfg.need wp.2 && needless_check cfg.needless wp.2) then
              .ok (st1, true)
            else
              let dwp := dump_filter cfg.dump wp.1 wp.2
              let st2 := { st1 with
                dic := dicUpdate st1.dic key { rec with text := .words dwp.1 } }
              if !(length_check cfg.lenMin cfg.lenMax dwp.1) then
                .ok (st2, true)
              else
                match st2.queue[idx]? with
                | none => .error .indexError
                | some ch =>
                  let intr :=
                    !(rec.parent.isSome && !(st2.tweet_ids.contains rec.id))
                  .ok
                    ({ st2 with
                        queue := st2.queue.set idx (ch ++ [lookupEntry cfg tagger rec s])
                      , tweet_ids := pySetAdd st2.tweet_ids rec.id }, intr)

/-- Lines 204–209 of `lookup`: the `if interrupte:` finalization — record
the index for removal and dump the chain when it holds a dialogue. -/
def lookupFinalize (cfg : Config) (st1 : LoopSt) (idx : Nat) :
    Except PyErr LoopSt :=
  let st2 := { st1 with dump_idxs := st1.dump_idxs ++ [idx] }
  match st2.queue[idx]? with
  | none => .error .indexError
  | some ch =>
    if 2 ≤ ch.length then
      let d := dump_data cfg.outputPart ch
      .ok { st2 with
        tweetSink := st2.tweetSink ++ d.prompts
        , replySink := st2.replySink ++ d.replies
        , partSink := st2.partSink ++ d.partLines
        , dump_count := st2.dump_count + (d.inc : Int)
        , dumpedChains := st2.dumpedChains ++ [d.chrono] }
    else .ok st2

/-- One iteration of the `for idx in range(self.BATCH_SIZE)` loop of
`lookup` (lines 185–209). -/
def lookupStep (cfg : Config) (tagger : String → List Node)
    (ids : List (Option Int)) (st : LoopSt) (idx : Nat) :
    Except PyErr LoopSt :=
  match ids[idx]? with
  | none => .error .indexError
  | some pv =>
    let key := strOfOptInt pv
    let tweet? := (st.dic.find? (fun kv => kv.1 = key)).map (fun kv => kv.2)
    match lookupExtend cfg tagger key tweet? st idx with
    | .error e => .error e
    | .ok (st1, interrupte) =>
      if interrupte then lookupFinalize cfg st1 idx else .ok st1

def lookupGo (cfg : Config) (tagger : String → List Node)
    (ids : List (Option Int)) : List Nat → LoopSt → Except PyErr LoopSt
  | [], st => .ok st
  | idx :: rest, st => do
    let st' ← lookupStep cfg tagger ids st idx
    lookupGo cfg tagger ids rest st'

/-- `QueueListener.lookup` (lines 170–212): collect the parent ids, issue
one bulk-lookup call, build `replys_dic` (a dict comprehension — on a
duplicate key the last entry wins, hence the `reverse` before the
first-match `find?`), run the batch loop, then compact the queue. -/
def lookup (L : Listener) : Except PyErr (Listener × Bool) := do
  let ids ← collectIds L.queue
  let replys := L.api ids
  let dic :=
    (replys.map (fun r =>
      (intChars r.id,
        ({ parent := r.in_reply_to, user := r.user
         , text := TextVal.raw (del_username (L.nfkc r.text).data)
         , id := r.id } : DicRec)))).reverse
  let st0 : LoopSt :=
    { queue := L.queue, tweet_ids := L.tweet_ids, dic := dic, dump_idxs := []
    , tweetSink := L.tweetSink, replySink := L.replySink
    , partSink := L.partSink, dump_count := L.dump_count
    , dumpedChains := L.dumpedChains }
  let st ← lookupGo L.cfg L.tagger ids (List.range L.BATCH_SIZE) st0
  Except.ok
    ({ L with
        queue := dellist st.queue st.dump_idxs
      , tweet_ids := st.tweet_ids
      , tweetSink := st.tweetSink, replySink := st.replySink
      , partSink := st.partSink, dump_count := st.dump_count
      , dumpedChains := st.dumpedChains }, true)

/-- The raw text preprocessing of an incoming status (line 154):
`self.del_username(unicodedata.normalize('NFKC', raw['text']))`. -/
def ingestText (L : Listener) (raw : RawStatus) : Chars :=
  del_username (L.nfkc raw.text).data

/-- The chain element `on_status` enqueues for an accepted status. -/
def ingestEntry (L : Listener) (raw : RawStatus) : Entry :=
  let wp := parse L.tagger (String.mk (normalize (ingestText L raw)))
  let dwp := dump_filter L.cfg.dump wp.1 wp.2
  { parent := raw.in_reply_to, user := raw.user
  , words := dwp.1, id := raw.id, parts := dwp.2 }

/-- All filter stages of `on_status` on an incoming status pass. -/
def ingestAccept (L : Listener) (raw : RawStatus) : Bool :=
  let text := ingestText L raw
  let wp := parse L.tagger (String.mk (normalize text))
  let dwp := dump_filter L.cfg.dump wp.1 wp.2
  check text && need_check L.cfg.need wp.2 && needless_check L.cfg.needless wp.2 &&
    length_check L.cfg.lenMin L.cfg.lenMax dwp.1

/-- The state after lines 162–163: the new one-element chain appended and
the id added to the seen set. -/
def appended (L : Listener) (raw : RawStatus) : Listener :=
  { L with queue := L.queue ++ [[ingestEntry L raw]]
         , tweet_ids := pySetAdd L.tweet_ids raw.id }

/-- `while len(self.queue) == self.BATCH_SIZE: if not self.lookup():
return False` (lines 165–167), then `return True`.  The loop need not
terminate (a batch may keep every chain open); `fuel` bounds it and the
result is `none` when fuel runs out mid-loop. -/
def lookupWhile : Nat → Listener → Except PyErr (Option (Listener × Bool))
  | 0, L =>
    if L.queue.length = L.BATCH_SIZE then .ok none else .ok (some (L, true))
  | fuel + 1, L =>
    if L.queue.length = L.BATCH_SIZE then
      match lookup L with
      | .error e => .error e
      | .ok (L', b) =>
        if b then lookupWhile fuel L' else .ok (some (L', false))
    else .ok (some (L, true))

/-- `QueueListener.on_status` (lines 147–168). -/
def on_status (fuel : Nat) (L : Listener) (raw : RawStatus) :
    Except PyErr (Option (Listener × Bool)) :=
  match raw.in_reply_to with
  | none => .ok (some (L, true))
  | some _ =>
    let text := ingestText L raw
    if check text then
      let wp := parse L.tagger (String.mk (normalize text))
      if need_check L.cfg.need wp.2 && needless_check L.cfg.needless wp.2 then
        let dwp := dump_filter L.cfg.dump wp.1 wp.2
        if length_check L.cfg.lenMin L.cfg.lenMax dwp.1 then
          lookupWhile fuel (appended L raw)
        else .ok (some (L, true))
      else .ok (some (L, true))
    else .ok (some (L, true))

/-! ## Checkpoint store and process start (`__init__`, lines 28–77;
`save_check_point` / `load_check_point`, lines 435–458) -/

/-- What the filesystem offers for `./data/check_point.txt`. -/
inductive CheckPointFile where
  | absent
  | unreadable
  | content (c : Chars)

/-- `load_check_point` (lines 446–458): the seen set and count are cleared
first, so a missing file or an `open` failure (only logged) leaves
`(0, ∅)`; a readable file is parsed, and a malformed one raises
`ValueError` out of `__init__`. -/
def load_check_point (f : CheckPointFile) : Except PyErr (Int × List Int) :=
  match f with
  | .absent => .ok (0, [])
  | .unreadable => .ok (0, [])
  | .content c => load_check_point_content c

/-- `save_check_point` (lines 435–444): on an `open` failure only a log
line is produced and nothing is written (`none`); otherwise the
checkpoint record is written.  Either way the run continues with the
listener state untouched. -/
def save_check_point (canWrite : Bool) (dump_count : Int)
    (tweet_ids : List Int) : Option Chars :=
  if canWrite then some (checkPointContent dump_count tweet_ids) else none

/-- `QueueListener.__init__` (lines 28–77) after a successful
configuration/auth setup: empty queue, `BATCH_SIZE = 100`, and the
checkpoint load (whose `ValueError` on a malformed file propagates). -/
def initListener (cfg : Config) (tagger : String → List Node)
    (nfkc : String → String) (api : List (Option Int) → List RawStatus)
    (f : CheckPointFile) : Except PyErr Listener := do
  let cp ← load_check_point f
  Except.ok
    { cfg := cfg, tagger := tagger, nfkc := nfkc, api := api
    , tweet_ids := cp.2, queue := [], BATCH_SIZE := 100, dump_count := cp.1
    , tweetSink := [], replySink := [], partSink := [], dumpedChains := [] }

/-! ## The reconnect loop (`twitter`, lines 460–475)

Each `while True` iteration ends in exactly one event.  The crucial
Python semantics: `sys.exit(1)` raises `SystemExit`, and the bare
`except:` on line 471 catches `BaseException` — `SystemExit` included —
so a configuration/auth failure is swallowed and retried; only
`KeyboardInterrupt` (line 467) breaks the loop, after which `twitter()`
returns and the process exits with code 0. -/

inductive LoopEvent where
  | initFail      -- `QueueListener()` called `sys.exit(1)` (config/auth failure)
  | initCrash     -- `QueueListener()` raised (e.g. ValueError from the checkpoint)
  | sessionError  -- the stream session raised any other exception
  | interruptEv   -- KeyboardInterrupt during the session
deriving DecidableEq

/-- `tcpip_delay` counted in quarters (`0.25`-steps, exact in binary):
`tcpip_delay += 0.25; tcpip_delay = min(tcpip_delay, 16)`. -/
def nextDelay (d : Nat) : Nat := min (d + 1) 64

/-- Run `twitter()` against a finite schedule of per-iteration events.
`some code` is process termination with that exit code; `none` means the
loop is still running when the schedule ends. -/
def twitterRun : List LoopEvent → Nat → Option (Nat × Nat)
  | [], _ => none
  | ev :: rest, d =>
    match ev with
    | .interruptEv => some (0, d)
    | .initFail => twitterRun rest (nextDelay d)
    | .initCrash => twitterRun rest (nextDelay d)
    | .sessionError => twitterRun rest (nextDelay d)

/-! ## Serialization lemmas -/

theorem digitChar_props (d : Nat) (h : d < 10) :
    (digitChar d).isDigit = true ∧ pyIsSpace (digitChar d) = false ∧
    digitChar d ≠ '\n' ∧ digitChar d ≠ '-' ∧ digitChar d ≠ '+' ∧
    digitVal (digitChar d) = d := by
  interval_cases d <;> exact ⟨rfl, rfl, by decide, by decide, by decide, rfl⟩

theorem natCharsF_props (fuel : Nat) :
    ∀ n, n ≤ fuel →
      ∀ c ∈ natCharsF fuel n, c.isDigit = true ∧ pyIsSpace c = false ∧ c ≠ '\n' := by
  induction fuel with
  | zero =>
    intro n hn c hc
    interval_cases n
    rcases List.mem_singleton.mp hc with rfl
    exact ⟨rfl, rfl, by decide⟩
  | succ f ih =>
    intro n hn c hc
    unfold natCharsF at hc
    by_cases h10 : n < 10
    · rw [if_pos h10] at hc
      rcases List.mem_singleton.mp hc with rfl
      obtain ⟨h1, h2, h3, -⟩ := digitChar_props n h10
      exact ⟨h1, h2, h3⟩
    · rw [if_neg h10] at hc
      rcases List.mem_append.mp hc with hc | hc
      · have hdiv : n / 10 ≤ f := by
          have := Nat.div_lt_self (show 0 < n by omega) (show 1 < 10 by omega)
          omega
        exact ih (n / 10) hdiv c hc
      · rcases List.mem_singleton.mp hc with rfl
        obtain ⟨h1, h2, h3, -⟩ := digitChar_props (n % 10) (Nat.mod_lt _ (by omega))
        exact ⟨h1, h2, h3⟩

theorem natChars_props (n : Nat) :
    ∀ c ∈ natChars n, c.isDigit = true ∧ pyIsSpace c = false ∧ c ≠ '\n' :=
  natCharsF_props n n (le_refl n)

theorem natCharsF_ne_nil (fuel n : Nat) : natCharsF fuel n ≠ [] := by
  cases fuel with
  | zero => simp [natCharsF]
  | succ f =>
    unfold natCharsF
    split <;> simp

theorem natChars_ne_nil (n : Nat) : natChars n ≠ [] := natCharsF_ne_nil n n

theorem natOfDigits_concat (xs : Chars) (c : Char) :
    natOfDigits (xs ++ [c]) = 10 * natOfDigits xs + digitVal c := by
  simp [natOfDigits, List.foldl_append]; ring

theorem natOfDigits_natCharsF (fuel : Nat) :
    ∀ n, n ≤ fuel → natOfDigits (natCharsF fuel n) = n := by
  induction fuel with
  | zero =>
    intro n hn
    interval_cases n
    rfl
  | succ f ih =>
    intro n hn
    unfold natCharsF
    by_cases h10 : n < 10
    · rw [if_pos h10]
      simp [natOfDigits, (digitChar_props n h10).2.2.2.2.2]
    · rw [if_neg h10]
      have hdiv : n / 10 ≤ f := by
        have := Nat.div_lt_self (show 0 < n by omega) (show 1 < 10 by omega)
        omega
      rw [natOfDigits_concat, ih (n / 10) hdiv,
        (digitChar_props (n % 10) (Nat.mod_lt _ (by omega))).2.2.2.2.2]
      omega

theorem natOfDigits_natChars (n : Nat) : natOfDigits (natChars n) = n :=
  natOfDigits_natCharsF n n (le_refl n)

theorem pyIntOfToken_natChars (n : Nat) :
    pyIntOfToken (natChars n) = some (n : Int) := by
  obtain ⟨c, cs, hcons⟩ : ∃ c cs, natChars n = c :: cs := by
    cases h : natChars n with
    | nil => exact absurd h (natChars_ne_nil n)
    | cons c cs => exact ⟨c, cs, rfl⟩
  have hdig : ∀ x ∈ natChars n, x.isDigit = true := fun x hx =>
    (natChars_props n x hx).1
  have hc : c.isDigit = true := hdig c (hcons ▸ List.mem_cons_self c cs)
  have hcm : c ≠ '-' := by intro h; rw [h] at hc; exact absurd hc (by decide)
  have hcp : c ≠ '+' := by intro h; rw [h] at hc; exact absurd hc (by decide)
  have hall : (c :: cs).all Char.isDigit = true := by
    rw [← hcons]; exact List.all_eq_true.mpr hdig
  rw [hcons]
  unfold pyIntOfToken
  split
  · rename_i ds heq
    exact absurd (List.cons.inj heq).1 hcm
  · rename_i ds heq
    exact absurd (List.cons.inj heq).1 hcp
  · rw [if_pos (by simp [hall])]
    rw [← hcons, natOfDigits_natChars]

theorem pyIntOfToken_intChars (i : Int) :
    pyIntOfToken (intChars i) = some i := by
  unfold intChars
  split
  · rename_i hneg
    have hds : (natChars i.natAbs).all Char.isDigit = true :=
      List.all_eq_true.mpr (fun x hx => (natChars_props _ x hx).1)
    have hne : ¬(natChars i.natAbs).isEmpty = true := by
      cases h : natChars i.natAbs with
      | nil => exact absurd h (natChars_ne_nil _)
      | cons c cs => simp [List.isEmpty]
    show pyIntOfToken ('-' :: natChars i.natAbs) = some i
    unfold pyIntOfToken
    simp only [hds, hne]
    rw [if_pos (by simp [hds, hne])]
    rw [natOfDigits_natChars]
    congr 1
    omega
  · rename_i hpos
    rw [pyIntOfToken_natChars]
    congr 1
    omega

theorem intChars_props (i : Int) :
    intChars i ≠ [] ∧ ∀ c ∈ intChars i, pyIsSpace c = false ∧ c ≠ '\n' := by
  unfold intChars
  split
  · refine ⟨by simp, ?_⟩
    intro c hc
    rcases List.mem_cons.mp hc with rfl | hc
    · exact ⟨rfl, by decide⟩
    · exact ⟨(natChars_props _ c hc).2.1, (natChars_props _ c hc).2.2⟩
  · exact ⟨natChars_ne_nil _, fun c hc =>
      ⟨(natChars_props _ c hc).2.1, (natChars_props _ c hc).2.2⟩⟩

theorem pySplitGo_nil (acc : Chars) :
    pySplitGo [] acc = if acc.isEmpty then [] else [acc.reverse] := rfl

theorem pySplitGo_cons (c : Char) (cs acc : Chars) :
    pySplitGo (c :: cs) acc =
      if pyIsSpace c then
        if acc.isEmpty then pySplitGo cs [] else acc.reverse :: pySplitGo cs []
      else pySplitGo cs (c :: acc) := rfl

theorem pySplitGo_nospace (t : Chars) (ht : ∀ c ∈ t, pyIsSpace c = false) :
    ∀ l acc, pySplitGo (t ++ l) acc = pySplitGo l (t.reverse ++ acc) := by
  induction t with
  | nil => intro l acc; simp
  | cons c t' ih =>
    intro l acc
    have hc : pyIsSpace c = false := ht c (List.mem_cons_self c t')
    rw [List.cons_append, pySplitGo_cons, hc]
    rw [if_neg (by decide)]
    rw [ih (fun x hx => ht x (List.mem_cons_of_mem c hx)) l (c :: acc)]
    simp

theorem pySplitGo_nospace_all (t : Chars) (ht : ∀ c ∈ t, pyIsSpace c = false)
    (acc : Chars) : pySplitGo t acc = pySplitGo [] (t.reverse ++ acc) := by
  have := pySplitGo_nospace t ht [] acc
  simpa using this

theorem pySplit_joinSep (toks : List Chars)
    (h : ∀ t ∈ toks, t ≠ [] ∧ ∀ c ∈ t, pyIsSpace c = false) :
    pySplit (joinSep [' '] toks) = toks := by
  induction toks with
  | nil => rfl
  | cons t ts ih =>
    cases ts with
    | nil =>
      obtain ⟨hne, hns⟩ := h t (List.mem_cons_self t [])
      show pySplitGo (joinSep [' '] [t]) [] = [t]
      have hj : joinSep [' '] [t] = t := rfl
      rw [hj, pySplitGo_nospace_all t hns [], pySplitGo_nil]
      rw [if_neg (by simpa [List.isEmpty_iff] using hne)]
      simp
    | cons t' ts' =>
      obtain ⟨hne, hns⟩ := h t (List.mem_cons_self t _)
      show pySplitGo (joinSep [' '] (t :: t' :: ts')) [] = t :: t' :: ts'
      have hj : joinSep [' '] (t :: t' :: ts') =
          t ++ (' ' :: joinSep [' '] (t' :: ts')) := by simp [joinSep]
      rw [hj, pySplitGo_nospace t hns _ [], pySplitGo_cons]
      rw [show pyIsSpace ' ' = true from rfl, if_pos rfl]
      rw [if_neg (by simpa [List.isEmpty_iff] using hne)]
      rw [show ((t.reverse ++ ([] : Chars))).reverse = t by simp]
      rw [show pySplitGo (joinSep [' '] (t' :: ts')) [] =
            pySplit (joinSep [' '] (t' :: ts')) from rfl]
      rw [ih (fun u hu => h u (List.mem_cons_of_mem t hu))]

theorem mapIntAll_map (ids : List Int) :
    mapIntAll (ids.map intChars) = some ids := by
  induction ids with
  | nil => rfl
  | cons i is ih => simp [mapIntAll, pyIntOfToken_intChars, ih]

theorem foldl_pySetAdd (l acc : List Int) (h : (acc ++ l).Nodup) :
    List.foldl pySetAdd acc l = acc ++ l := by
  induction l generalizing acc with
  | nil => simp
  | cons x l' ih =>
    have hx : x ∉ acc := by
      intro hmem
      have := List.disjoint_of_nodup_append h
      exact this hmem (List.mem_cons_self x l')
    have hstep : pySetAdd acc x = acc ++ [x] := by simp [pySetAdd, hx]
    simp only [List.foldl_cons, hstep]
    rw [ih (acc ++ [x]) (by simpa using h)]
    simp

theorem pySetOfList_nodup (ids : List Int) (h : ids.Nodup) :
    pySetOfList ids = ids := by
  simpa [pySetOfList] using foldl_pySetAdd ids [] (by simpa using h)

theorem takeWhile_append_stop (q : Char → Bool) (xs : Chars) (b : Char)
    (r : Chars) (hxs : ∀ c ∈ xs, q c = true) (hb : q b = false) :
    (xs ++ b :: r).takeWhile q = xs ∧ (xs ++ b :: r).dropWhile q = b :: r := by
  induction xs with
  | nil => simp [List.takeWhile, List.dropWhile, hb]
  | cons c cs ih =>
    have hc : q c = true := hxs c (List.mem_cons_self c cs)
    obtain ⟨h1, h2⟩ := ih (fun x hx => hxs x (List.mem_cons_of_mem c hx))
    simp [List.takeWhile, List.dropWhile, hc, h1, h2]

theorem takeWhile_all (q : Char → Bool) (xs : Chars)
    (hxs : ∀ c ∈ xs, q c = true) : xs.takeWhile q = xs := by
  induction xs with
  | nil => rfl
  | cons c cs ih =>
    simp [List.takeWhile, hxs c (List.mem_cons_self c cs),
      ih (fun x hx => hxs x (List.mem_cons_of_mem c hx))]

theorem pyStrip_eq_self (l : Chars) (h : ∀ c ∈ l, pyIsSpace c = false) :
    pyStrip l = l := by
  unfold pyStrip
  have h1 : l.dropWhile pyIsSpace = l := by
    cases l with
    | nil => rfl
    | cons c cs => simp [List.dropWhile, h c (List.mem_cons_self c cs)]
  rw [h1]
  have h2 : l.reverse.dropWhile pyIsSpace = l.reverse := by
    cases hr : l.reverse with
    | nil => rfl
    | cons c cs =>
      have : c ∈ l := by
        rw [← List.mem_reverse, hr]; exact List.mem_cons_self c cs
      simp [List.dropWhile, h c this]
  rw [h2, List.reverse_reverse]

theorem joinSep_mem (sep : Chars) (ts : List Chars) (c : Char)
    (h : c ∈ joinSep sep ts) : c ∈ sep ∨ ∃ t ∈ ts, c ∈ t := by
  induction ts with
  | nil => simp [joinSep] at h
  | cons t ts' ih =>
    cases ts' with
    | nil =>
      right; exact ⟨t, List.mem_cons_self t [], by simpa [joinSep] using h⟩
    | cons u us =>
      simp only [joinSep, List.append_assoc, List.mem_append] at h
      rcases h with h | h | h
      · right; exact ⟨t, List.mem_cons_self t _, h⟩
      · exact Or.inl h
      · rcases ih h with h | ⟨v, hv, hc⟩
        · exact Or.inl h
        · exact Or.inr ⟨v, List.mem_cons_of_mem t hv, hc⟩

/-- C8 helper: the ids line of the checkpoint has no whitespace at its
edges and no newline anywhere. -/
theorem idsLine_mem (ids : List Int) (c : Char)
    (h : c ∈ joinSep [' '] (ids.map intChars)) : c = ' ' ∨ (pyIsSpace c = false ∧ c ≠ '\n') := by
  rcases joinSep_mem [' '] (ids.map intChars) c h with h | ⟨t, ht, hc⟩
  · left; simpa using h
  · right
    obtain ⟨i, _, rfl⟩ := List.mem_map.mp ht
    exact (intChars_props i).2 c hc

theorem head?_mem {α : Type} {l : List α} {c : α} (h : l.head? = some c) :
    c ∈ l := by
  cases l with
  | nil => simp at h
  | cons a as =>
    simp only [List.head?_cons, Option.some.injEq] at h
    exact h ▸ List.mem_cons_self a as

theorem reverse_head? {α : Type} (l : List α) :
    l.reverse.head? = l.getLast? := by
  induction l with
  | nil => rfl
  | cons a as ih =>
    cases as with
    | nil => rfl
    | cons b bs =>
      rw [List.reverse_cons, List.head?_append_of_ne_nil _ (by simp), ih,
        List.getLast?_cons_cons]

theorem getLast?_mem {α : Type} {l : List α} {c : α} (h : l.getLast? = some c) :
    c ∈ l := by
  rw [← reverse_head?] at h
  rw [← List.mem_reverse]
  exact head?_mem h

theorem joinSep_ne_nil (ts : List Chars)
    (h : ∀ t ∈ ts, t ≠ []) (hne : ts ≠ []) : joinSep [' '] ts ≠ [] := by
  cases ts with
  | nil => exact absurd rfl hne
  | cons t ts' =>
    cases ts' with
    | nil => exact h t (List.mem_cons_self t [])
    | cons u us =>
      have : joinSep [' '] (t :: u :: us) = t ++ [' '] ++ joinSep [' '] (u :: us) := rfl
      rw [this]
      simp

theorem joinSep_head_nospace (ts : List Chars)
    (h : ∀ t ∈ ts, t ≠ [] ∧ ∀ c ∈ t, pyIsSpace c = false) :
    ∀ c, (joinSep [' '] ts).head? = some c → pyIsSpace c = false := by
  cases ts with
  | nil => intro c hc; simp [joinSep] at hc
  | cons t ts' =>
    obtain ⟨hne, hns⟩ := h t (List.mem_cons_self t ts')
    cases ts' with
    | nil =>
      intro c hc
      exact hns c (head?_mem hc)
    | cons u us =>
      intro c hc
      have hj : joinSep [' '] (t :: u :: us) = t ++ ([' '] ++ joinSep [' '] (u :: us)) := by
        show t ++ [' '] ++ joinSep [' '] (u :: us) = _
        rw [List.append_assoc]
      rw [hj, List.head?_append_of_ne_nil t hne] at hc
      exact hns c (head?_mem hc)

theorem joinSep_getLast_nospace (ts : List Chars)
    (h : ∀ t ∈ ts, t ≠ [] ∧ ∀ c ∈ t, pyIsSpace c = false) :
    ∀ c, (joinSep [' '] ts).getLast? = some c → pyIsSpace c = false := by
  induction ts with
  | nil => intro c hc; simp [joinSep] at hc
  | cons t ts' ih =>
    obtain ⟨hne, hns⟩ := h t (List.mem_cons_self t ts')
    cases ts' with
    | nil =>
      intro c hc
      exact hns c (getLast?_mem (show t.getLast? = some c from hc))
    | cons u us =>
      intro c hc
      have hj : joinSep [' '] (t :: u :: us) =
          (t ++ [' ']) ++ joinSep [' '] (u :: us) := rfl
      have hnn : joinSep [' '] (u :: us) ≠ [] :=
        joinSep_ne_nil _ (fun v hv => (h v (List.mem_cons_of_mem t hv)).1) (by simp)
      rw [hj, List.getLast?_append_of_ne_nil _ hnn] at hc
      exact ih (fun v hv => h v (List.mem_cons_of_mem t hv)) c hc

theorem pyStrip_eq_self_edges (l : Chars)
    (hh : ∀ c, l.head? = some c → pyIsSpace c = false)
    (hl : ∀ c, l.getLast? = some c → pyIsSpace c = false) :
    pyStrip l = l := by
  unfold pyStrip
  have h1 : l.dropWhile pyIsSpace = l := by
    cases l with
    | nil => rfl
    | cons c cs => simp [List.dropWhile, hh c rfl]
  rw [h1]
  have h2 : l.reverse.dropWhile pyIsSpace = l.reverse := by
    cases hr : l.reverse with
    | nil => rfl
    | cons d ds =>
      have : l.getLast? = some d := by
        rw [← reverse_head?, hr, List.head?_cons]
      simp [List.dropWhile, hl d this]
  rw [h2, List.reverse_reverse]

/-- C8 core: saving a checkpoint and reloading it restores `dump_count`
and the seen-id set exactly. -/
theorem load_save_roundtrip (dc : Int) (ids : List Int) (h : ids.Nodup) :
    load_check_point_content (checkPointContent dc ids) = .ok (dc, ids) := by
  have hid := intChars_props dc
  have hq : ∀ c ∈ intChars dc, (fun c => decide (c ≠ '\n')) c = true := by
    intro c hc
    simpa using (hid.2 c hc).2
  have htoks : ∀ t ∈ ids.map intChars, t ≠ [] ∧ ∀ c ∈ t, pyIsSpace c = false := by
    intro t ht
    obtain ⟨i, _, rfl⟩ := List.mem_map.mp ht
    exact ⟨(intChars_props i).1, fun c hc => ((intChars_props i).2 c hc).1⟩
  unfold load_check_point_content checkPointContent
  obtain ⟨ht1, hd1⟩ := takeWhile_append_stop (fun c => decide (c ≠ '\n'))
    (intChars dc) '\n' (joinSep [' '] (ids.map intChars)) hq (by simp)
  dsimp only
  rw [ht1, hd1]
  have hstrip1 : pyStrip (intChars dc) = intChars dc :=
    pyStrip_eq_self (intChars dc) (fun c hc => (hid.2 c hc).1)
  rw [hstrip1, pyIntOfToken_intChars]
  have hJ : ∀ c ∈ joinSep [' '] (ids.map intChars), (fun c => decide (c ≠ '\n')) c = true := by
    intro c hc
    rcases idsLine_mem ids c hc with rfl | ⟨-, h2⟩ <;> simp_all
  rw [List.drop_one, List.tail_cons, takeWhile_all _ _ hJ]
  rw [pyStrip_eq_self_edges _ (joinSep_head_nospace _ htoks)
    (joinSep_getLast_nospace _ htoks)]
  rw [pySplit_joinSep _ htoks, mapIntAll_map]
  show Except.ok (dc, pySetOfList ids) = Except.ok (dc, ids)
  rw [pySetOfList_nodup ids h]

/-! ## Claim theorems: C6–C9 -/

/-- C8: checkpoint persistence round-trips: for every `dump_count` and
every duplicate-free id set, save-then-load restores both exactly
(line 1 a decimal integer, line 2 the whitespace-separated ids). -/
theorem C8_checkpoint_roundtrip (dc : Int) (ids : List Int) (h : ids.Nodup) :
    load_check_point_content (checkPointContent dc ids) = .ok (dc, ids) :=
  load_save_roundtrip dc ids h

/-- C8 witness: the spec's own example, `{dump_count: 5, seen_ids: {1,2,3}}`. -/
theorem C8_checkpoint_roundtrip_witness :
    load_check_point_content (checkPointContent 5 [1, 2, 3]) = .ok (5, [1, 2, 3]) :=
  C8_checkpoint_roundtrip 5 [1, 2, 3] (by decide)

/-- C7: checkpoint IO failure is never fatal: an unreadable or missing
file yields an empty seen set and zero dump count (`load_check_point`
returns normally), and a failed write produces no record while the
listener state is untouched (`save_check_point` returns normally with
`none`). -/
theorem C7_checkpoint_io_nonfatal :
    load_check_point .unreadable = .ok (0, []) ∧
    load_check_point .absent = .ok (0, []) ∧
    ∀ dc ids, save_check_point false dc ids = none :=
  ⟨rfl, rfl, fun _ _ => rfl⟩

/-- C6: against the claim, a fatal configuration/auth failure does NOT
exit the process: `sys.exit(1)` raises `SystemExit`, the bare `except:`
of `twitter()` swallows it, and the loop backs off and retries forever
(first conjunct: under a permanently failing `QueueListener()` the loop
never terminates, whatever the schedule length).  An operator interrupt
does terminate with exit code 0 (second conjunct), and ordinary session
errors never terminate on their own (third conjunct). -/
theorem C6_exit_behavior :
    (∀ (n : Nat) (d : Nat), twitterRun (List.replicate n .initFail) d = none) ∧
    (∀ (n : Nat) (d : Nat), ∃ d',
      twitterRun (List.replicate n .sessionError ++ [.interruptEv]) d = some (0, d')) ∧
    (∀ (n : Nat) (d : Nat), twitterRun (List.replicate n .sessionError) d = none) := by
  refine ⟨?_, ?_, ?_⟩
  · intro n
    induction n with
    | zero => intro d; rfl
    | succ k ih => intro d; exact ih (nextDelay d)
  · intro n
    induction n with
    | zero => intro d; exact ⟨d, rfl⟩
    | succ k ih => intro d; exact ih (nextDelay d)
  · intro n
    induction n with
    | zero => intro d; rfl
    | succ k ih => intro d; exact ih (nextDelay d)

/-- A sentence-boundary marker of the normalizer's output alphabet. -/
def isBoundaryMark (c : Char) : Bool :=
  c = '。' || c = '！' || c = '？' || c = '!' || c = '?'

/-- C9 counterexample: `normalize "、"` is a bare newline — the output
contains no sentence-boundary marker at all, so the normalized string
does not always end in one. -/
theorem C9_counterexample :
    normalize ['、'] = ['\n'] ∧ isBoundaryMark '\n' = false := by
  constructor
  · rfl
  · rfl

/-- C9 amended: the terminal period is appended unconditionally (line 302
runs on every input, whether or not a boundary is already trailing), so
the string entering the post-append stages always ends in `。`; the final
output, however, need not end in a sentence boundary, because the
leading-punctuation strip of line 322 can consume every marker. -/
theorem C9_amended (l : Chars) :
    normalize l = normalizePost (normalizePre l ++ ['。']) ∧
    (normalizePre l ++ ['。']).getLast? = some '。' :=
  ⟨rfl, by simp⟩

/-! ## Alternation and run invariants -/

/-- Recursive check of strict two-party alternation on an author-id list:
adjacent entries differ and entries two apart agree. -/
def altUsers : List Int → Bool
  | a :: b :: rest =>
    decide (a ≠ b) &&
      (match rest with
       | c :: _ => decide (a = c)
       | [] => true) &&
      altUsers (b :: rest)
  | _ => true

/-- The author ids of a chain in chronological order (a chain is stored
newest-first, so this is the reversed author list — also exactly the
author list of the chain `dump_data` writes). -/
def chainUsers (ch : Chain) : List Int := ch.reverse.map (fun e => e.user)

/-- The claim's formulation of strict two-party alternation, by index. -/
def TwoPartyAlt (us : List Int) : Prop :=
  ∀ i : Nat,
    (i + 1 < us.length → us.getD i 0 ≠ us.getD (i + 1) 0) ∧
    (i + 2 < us.length → us.getD i 0 = us.getD (i + 2) 0)

theorem altUsers_twoParty (us : List Int) (h : altUsers us = true) :
    TwoPartyAlt us := by
  induction us with
  | nil => intro i; exact ⟨fun hlt => by simp at hlt, fun hlt => by simp at hlt⟩
  | cons a tail ih =>
    cases tail with
    | nil =>
      intro i
      constructor
      · intro hlt; simp at hlt
      · intro hlt; simp at hlt
    | cons b rest =>
      have hh : altUsers (a :: b :: rest) = true := h
      unfold altUsers at hh
      rw [Bool.and_assoc, Bool.and_eq_true, Bool.and_eq_true] at hh
      obtain ⟨hab, hskip, htail⟩ := hh
      have ihtail := ih htail
      intro i
      cases i with
      | zero =>
        constructor
        · intro _
          simp only [List.getD_cons_zero, List.getD_cons_succ]
          exact of_decide_eq_true hab
        · intro hlt
          cases rest with
          | nil => simp at hlt
          | cons c rest' =>
            simp only [List.getD_cons_zero, List.getD_cons_succ]
            exact of_decide_eq_true hskip
      | succ j =>
        have := ihtail j
        constructor
        · intro hlt
          simp only [List.getD_cons_succ]
          exact this.1 (by simp only [List.length_cons] at hlt ⊢; omega)
        · intro hlt
          simp only [List.getD_cons_succ]
          exact this.2 (by simp only [List.length_cons] at hlt ⊢; omega)

theorem chainUsers_append (ch : Chain) (e : Entry) :
    chainUsers (ch ++ [e]) = e.user :: chainUsers ch := by
  simp [chainUsers]

theorem altUsers_singleton (u : Int) : altUsers [u] = true := rfl

/-- Extending a chain that passed `talker_check` keeps it alternating. -/
theorem talker_check_extend (q : List Chain) (talker : Int) (idx : Nat)
    (ch : Chain) (hch : q[idx]? = some ch) (hne : ch ≠ [])
    (halt : altUsers (chainUsers ch) = true)
    (ht : talker_check q talker idx = .ok true) :
    altUsers (talker :: chainUsers ch) = true := by
  unfold talker_check at ht
  rw [hch] at ht
  dsimp only at ht
  obtain ⟨lastE, hlast⟩ : ∃ e, ch.getLast? = some e := by
    rw [List.getLast?_eq_getLast_of_ne_nil hne]
    exact ⟨_, rfl⟩
  rw [hlast] at ht
  dsimp only at ht
  by_cases heq : talker = lastE.user
  · rw [if_pos heq] at ht
    cases ht
  rw [if_neg heq] at ht
  -- the chronological author list starts with the chain's oldest entry
  have hrev0 : ch.reverse.head? = some lastE := by
    rw [reverse_head?, hlast]
  by_cases hlen : ch.length = 1
  · -- singleton chain: the new author just has to differ
    obtain ⟨e, rfl⟩ := List.length_eq_one.mp hlen
    have he : e = lastE := by simpa using hlast
    subst he
    show altUsers (talker :: chainUsers [e]) = true
    simp only [chainUsers, List.reverse_singleton, List.map_cons, List.map_nil]
    unfold altUsers
    simp [heq, altUsers]
  · rw [if_neg hlen] at ht
    have hlen2 : 2 ≤ ch.length := by
      have : 0 < ch.length := List.length_pos.mpr hne
      omega
    obtain ⟨snd, hsnd⟩ : ∃ e, ch[ch.length - 2]? = some e := by
      have : ch.length - 2 < ch.length := by omega
      exact ⟨ch[ch.length - 2], List.getElem?_eq_getElem this⟩
    rw [hsnd] at ht
    dsimp only at ht
    have htt : talker = snd.user := of_decide_eq_true (by simpa using ht)
    -- peel two elements off the reversed chain
    obtain ⟨x, y, rest, hx⟩ : ∃ x y rest, ch.reverse = x :: y :: rest := by
      have h2 : 2 ≤ ch.reverse.length := by simpa using hlen2
      cases hrev : ch.reverse with
      | nil => rw [hrev] at h2; simp at h2
      | cons x t =>
        cases t with
        | nil => rw [hrev] at h2; simp at h2
        | cons y rest => exact ⟨x, y, rest, rfl⟩
    have hxlast : x = lastE := by
      rw [hx] at hrev0
      simpa using hrev0
    have hysnd : y = snd := by
      have h1 : ch.reverse[1]? = some y := by rw [hx]; simp
      rw [List.getElem?_reverse (by omega)] at h1
      have : ch.length - 1 - 1 = ch.length - 2 := by omega
      rw [this, hsnd] at h1
      exact (by simpa using h1 : snd = y).symm
    subst hxlast hysnd
    show altUsers (talker :: chainUsers ch) = true
    unfold chainUsers
    rw [hx]
    simp only [List.map_cons]
    unfold altUsers
    rw [Bool.and_assoc, Bool.and_eq_true, Bool.and_eq_true]
    refine ⟨by simpa using heq, by simpa using htt, ?_⟩
    have : altUsers (chainUsers ch) = true := halt
    unfold chainUsers at this
    rw [hx] at this
    simpa using this

/-- The queue invariant: every in-flight chain is nonempty and its author
list alternates. -/
def ChainsOK (q : List Chain) : Prop :=
  ∀ ch ∈ q, ch ≠ [] ∧ altUsers (chainUsers ch) = true

/-- Every chain handed to `dump_data` alternates. -/
def DumpedOK (ds : List Chain) : Prop :=
  ∀ ch ∈ ds, altUsers (ch.map (fun e => e.user)) = true

/-- The loop-state invariant carried through one `lookup` call. -/
def StOK (cfg : Config) (st : LoopSt) : Prop :=
  ChainsOK st.queue ∧ DumpedOK st.dumpedChains ∧
  st.tweetSink.length = st.replySink.length ∧
  (cfg.outputPart = true → st.partSink.length = st.tweetSink.length)

/-- The listener invariant between messages. -/
def LOK (L : Listener) : Prop :=
  ChainsOK L.queue ∧ DumpedOK L.dumpedChains ∧
  L.tweetSink.length = L.replySink.length ∧
  (L.cfg.outputPart = true → L.partSink.length = L.tweetSink.length)

/-- A fresh-start listener: what `__init__` produces (empty queue and
sinks, positive batch capacity); the batch size is left abstract so the
statements cover the source's `BATCH_SIZE = 100` and any other positive
capacity. -/
def InitLike (L : Listener) : Prop :=
  L.queue = [] ∧ L.tweetSink = [] ∧ L.replySink = [] ∧ L.partSink = [] ∧
  L.dumpedChains = [] ∧ 0 < L.BATCH_SIZE

/-- The states a run reaches from `L0` by feeding statuses through
`on_status` (checkpoint saves on stream notices do not change listener
state). -/
inductive Reachable (L0 : Listener) : Listener → Prop
  | refl : Reachable L0 L0
  | step {L L' : Listener} {b : Bool} {fuel : Nat} {raw : RawStatus} :
      Reachable L0 L → on_status fuel L raw = .ok (some (L', b)) →
      Reachable L0 L'

theorem lookupEntry_user (cfg : Config) (tagger : String → List Node)
    (rec : DicRec) (s : Chars) : (lookupEntry cfg tagger rec s).user = rec.user :=
  rfl

/-- What one `lookupExtend` success can do to the loop state: the sinks
and dump bookkeeping are untouched; the queue is unchanged or one chain
gained exactly the entry that passed `talker_check`. -/
theorem lookupExtend_ok (cfg : Config) (tagger : String → List Node)
    (key : Chars) (tweet? : Option DicRec) (st : LoopSt) (idx : Nat)
    (st1 : LoopSt) (intr : Bool)
    (h : lookupExtend cfg tagger key tweet? st idx = .ok (st1, intr)) :
    st1.dumpedChains = st.dumpedChains ∧ st1.tweetSink = st.tweetSink ∧
    st1.replySink = st.replySink ∧ st1.partSink = st.partSink ∧
    st1.dump_idxs = st.dump_idxs ∧
    st1.queue.length = st.queue.length ∧
    (st1.queue = st.queue ∨
      ∃ (ch : Chain) (rec : DicRec) (s : Chars),
        st.queue[idx]? = some ch ∧
        talker_check st.queue rec.user idx = .ok true ∧
        st1.queue = st.queue.set idx (ch ++ [lookupEntry cfg tagger rec s])) := by
  unfold lookupExtend at h
  cases tweet? with
  | none =>
    cases h
    exact ⟨rfl, rfl, rfl, rfl, rfl, rfl, Or.inl rfl⟩
  | some rec =>
    dsimp only at h
    cases hrt : rec.text with
    | words ws => rw [hrt] at h; cases h
    | raw s =>
      rw [hrt] at h
      dsimp only at h
      by_cases hck : check s
      · rw [hck] at h
        simp only [Bool.not_true, Bool.false_eq_true, if_false] at h
        cases htc : talker_check st.queue rec.user idx with
        | error e => rw [htc] at h; cases h
        | ok t =>
          rw [htc] at h
          dsimp only at h
          by_cases hti : t
          · subst hti
            simp only [Bool.not_true, Bool.false_eq_true, if_false] at h
            by_cases hnc : need_check cfg.need
                (parse tagger (String.mk (normalize s))).2 &&
                needless_check cfg.needless
                  (parse tagger (String.mk (normalize s))).2
            · rw [hnc] at h
              simp only [Bool.not_true, Bool.false_eq_true, if_false] at h
              by_cases hlc : length_check cfg.lenMin cfg.lenMax
                  (dump_filter cfg.dump (parse tagger (String.mk (normalize s))).1
                    (parse tagger (String.mk (normalize s))).2).1
              · rw [hlc] at h
                simp only [Bool.not_true, Bool.false_eq_true, if_false] at h
                cases hq : st.queue[idx]? with
                | none => rw [hq] at h; cases h
                | some ch =>
                  rw [hq] at h
                  dsimp only at h
                  cases h
                  refine ⟨rfl, rfl, rfl, rfl, rfl, by simp, Or.inr ?_⟩
                  exact ⟨ch, rec, s, rfl, htc, rfl⟩

              · rw [Bool.not_eq_true] at hlc
                rw [hlc] at h
                simp only [Bool.not_false, if_true] at h
                cases h
                exact ⟨rfl, rfl, rfl, rfl, rfl, rfl, Or.inl rfl⟩
            · rw [Bool.not_eq_true] at hnc
              rw [hnc] at h
              simp only [Bool.not_false, if_true] at h
              cases h
              exact ⟨rfl, rfl, rfl, rfl, rfl, rfl, Or.inl rfl⟩
          · rw [Bool.not_eq_true] at hti
            subst hti
            simp only [Bool.not_false, if_true] at h
            cases h
            exact ⟨rfl, rfl, rfl, rfl, rfl, rfl, Or.inl rfl⟩
      · rw [Bool.not_eq_true] at hck
        rw [hck] at h
        simp only [Bool.not_false, if_true] at h
        cases h
        exact ⟨rfl, rfl, rfl, rfl, rfl, rfl, Or.inl rfl⟩

/-- What `lookupFinalize` does: the queue is untouched, and if a chain is
dumped, it came from the queue and each sink gains the same number of
lines. -/
theorem lookupFinalize_ok (cfg : Config) (st1 : LoopSt) (idx : Nat)
    (st' : LoopSt) (h : lookupFinalize cfg st1 idx = .ok st')
    (hchains : ChainsOK st1.queue) :
    st'.queue = st1.queue ∧
    (DumpedOK st1.dumpedChains → DumpedOK st'.dumpedChains) ∧
    (st1.tweetSink.length = st1.replySink.length →
      st'.tweetSink.length = st'.replySink.length) ∧
    ((cfg.outputPart = true → st1.partSink.length = st1.tweetSink.length) →
      cfg.outputPart = true → st'.partSink.length = st'.tweetSink.length) := by
  unfold lookupFinalize at h
  dsimp only at h
  cases hq : st1.queue[idx]? with
  | none => rw [hq] at h; cases h
  | some ch =>
    rw [hq] at h
    dsimp only at h
    by_cases hlen : 2 ≤ ch.length
    · rw [if_pos hlen] at h
      cases h
      have hchm : ch ∈ st1.queue := by
        have := List.getElem?_eq_some_iff.mp hq
        obtain ⟨hlt, hget⟩ := this
        exact hget ▸ List.getElem_mem hlt
      obtain ⟨-, halt⟩ := hchains ch hchm
      refine ⟨rfl, ?_, ?_, ?_⟩
      · intro hd ch' hmem
        dsimp only at hmem
        rcases List.mem_append.mp hmem with hmem | hmem
        · exact hd ch' hmem
        · rcases List.mem_singleton.mp hmem with rfl
          show altUsers ((dump_data cfg.outputPart ch).chrono.map
            (fun e => e.user)) = true
          have : (dump_data cfg.outputPart ch).chrono = ch.reverse := rfl
          rw [this]
          exact halt
      · intro hs
        dsimp only
        simp only [List.length_append]
        rw [hs]
        have : (dump_data cfg.outputPart ch).prompts.length =
            (dump_data cfg.outputPart ch).replies.length := by
          simp [dump_data]
        rw [this]
      · intro hp hop
        dsimp only
        simp only [List.length_append]
        rw [hp hop]
        have : (dump_data cfg.outputPart ch).partLines.length =
            (dump_data cfg.outputPart ch).prompts.length := by
          simp [dump_data, hop]
        rw [this]
    · rw [if_neg hlen] at h
      cases h
      exact ⟨rfl, fun hd => hd, fun hs => hs, fun hp => hp⟩

theorem ChainsOK_set (q : List Chain) (idx : Nat) (ch : Chain) (e : Entry)
    (_hq : q[idx]? = some ch) (hok : ChainsOK q)
    (halt : altUsers (e.user :: chainUsers ch) = true) :
    ChainsOK (q.set idx (ch ++ [e])) := by
  intro ch' hmem
  rcases List.mem_or_eq_of_mem_set hmem with hmem | rfl
  · exact hok ch' hmem
  · refine ⟨by simp, ?_⟩
    rw [chainUsers_append]
    exact halt

/-- `lookupStep` preserves the loop invariant and the queue length. -/
theorem lookupStep_ok (cfg : Config) (tagger : String → List Node)
    (ids : List (Option Int)) (st : LoopSt) (idx : Nat) (st' : LoopSt)
    (h : lookupStep cfg tagger ids st idx = .ok st') (hok : StOK cfg st) :
    StOK cfg st' ∧ st'.queue.length = st.queue.length := by
  obtain ⟨hchains, hdumped, hsinks, hpsink⟩ := hok
  unfold lookupStep at h
  cases hi : ids[idx]? with
  | none => rw [hi] at h; cases h
  | some pv =>
    rw [hi] at h
    dsimp only at h
    cases hext : lookupExtend cfg tagger (strOfOptInt pv)
        ((st.dic.find? (fun kv => kv.1 = strOfOptInt pv)).map (fun kv => kv.2))
        st idx with
    | error e => rw [hext] at h; cases h
    | ok p =>
      obtain ⟨st1, intr⟩ := p
      rw [hext] at h
      dsimp only at h
      obtain ⟨hd1, ht1, hr1, hp1, hdi1, hql1, hq1⟩ :=
        lookupExtend_ok cfg tagger _ _ st idx st1 intr hext
      have hchains1 : ChainsOK st1.queue := by
        rcases hq1 with hq1 | ⟨ch, rec, s, hch, htc, hq1⟩
        · rw [hq1]; exact hchains
        · rw [hq1]
          have hchm : ch ∈ st.queue := by
            obtain ⟨hlt, hget⟩ := List.getElem?_eq_some_iff.mp hch
            exact hget ▸ List.getElem_mem hlt
          obtain ⟨hne, halt⟩ := hchains ch hchm
          refine ChainsOK_set st.queue idx ch _ hch hchains ?_
          rw [lookupEntry_user]
          exact talker_check_extend st.queue rec.user idx ch hch hne halt htc
      have hst1 : StOK cfg st1 := by
        refine ⟨hchains1, ?_, ?_, ?_⟩
        · rw [hd1]; exact hdumped
        · rw [ht1, hr1]; exact hsinks
        · rw [hp1, ht1]; exact hpsink
      by_cases hintr : intr
      · subst hintr
        rw [if_pos rfl] at h
        obtain ⟨hq', hdump', hsink', hpsink'⟩ :=
          lookupFinalize_ok cfg st1 idx st' h hchains1
        refine ⟨⟨by rw [hq']; exact hchains1, hdump' hst1.2.1,
          hsink' hst1.2.2.1, hpsink' hst1.2.2.2⟩, ?_⟩
        rw [hq', hql1]
      · rw [Bool.not_eq_true] at hintr
        subst hintr
        simp only [Bool.false_eq_true, if_false] at h
        cases h
        exact ⟨hst1, hql1⟩

theorem lookupGo_ok (cfg : Config) (tagger : String → List Node)
    (ids : List (Option Int)) :
    ∀ (idxs : List Nat) (st st' : LoopSt),
      lookupGo cfg tagger ids idxs st = .ok st' → StOK cfg st →
      StOK cfg st' ∧ st'.queue.length = st.queue.length := by
  intro idxs
  induction idxs with
  | nil =>
    intro st st' h hok
    cases h
    exact ⟨hok, rfl⟩
  | cons idx rest ih =>
    intro st st' h hok
    unfold lookupGo at h
    cases hstep : lookupStep cfg tagger ids st idx with
    | error e => rw [hstep] at h; cases h
    | ok st1 =>
      rw [hstep] at h
      dsimp only [bind, Except.bind] at h
      obtain ⟨hok1, hlen1⟩ := lookupStep_ok cfg tagger ids st idx st1 hstep hok
      obtain ⟨hok', hlen'⟩ := ih st1 st' h hok1
      exact ⟨hok', by rw [hlen', hlen1]⟩

theorem dellist_sub {α : Type} (items : List α) (idxs : List Nat) :
    ∀ x ∈ dellist items idxs, x ∈ items := by
  intro x hx
  unfold dellist at hx
  obtain ⟨p, hp, hpx⟩ := List.mem_filterMap.mp hx
  by_cases hmem : p.1 ∈ idxs
  · rw [if_pos hmem] at hpx; cases hpx
  · rw [if_neg hmem] at hpx
    cases hpx
    exact List.snd_mem_of_mem_enum hp

theorem dellist_len_le {α : Type} (items : List α) (idxs : List Nat) :
    (dellist items idxs).length ≤ items.length := by
  unfold dellist
  calc (items.enum.filterMap _).length ≤ items.enum.length :=
        List.length_filterMap_le _ _
    _ = items.length := List.enum_length

/-- `lookup` returns `True`, preserves the listener invariant, never grows
the queue, and keeps the configuration and capacity. -/
theorem lookup_ok (L : Listener) (L' : Listener) (b : Bool)
    (h : lookup L = .ok (L', b)) (hok : LOK L) :
    LOK L' ∧ b = true ∧ L'.queue.length ≤ L.queue.length ∧
    L'.BATCH_SIZE = L.BATCH_SIZE ∧ L'.cfg = L.cfg := by
  obtain ⟨hchains, hdumped, hsinks, hpsink⟩ := hok
  unfold lookup at h
  cases hids : collectIds L.queue with
  | error e => rw [hids] at h; cases h
  | ok ids =>
    rw [hids] at h
    dsimp only [bind, Except.bind] at h
    set st0 : LoopSt :=
      { queue := L.queue, tweet_ids := L.tweet_ids
      , dic := ((L.api ids).map (fun r =>
          (intChars r.id,
            ({ parent := r.in_reply_to, user := r.user
             , text := TextVal.raw (del_username (L.nfkc r.text).data)
             , id := r.id } : DicRec)))).reverse
      , dump_idxs := []
      , tweetSink := L.tweetSink, replySink := L.replySink
      , partSink := L.partSink, dump_count := L.dump_count
      , dumpedChains := L.dumpedChains } with hst0
    cases hgo : lookupGo L.cfg L.tagger ids (List.range L.BATCH_SIZE) st0 with
    | error e => rw [hgo] at h; cases h
    | ok st =>
      rw [hgo] at h
      dsimp only at h
      cases h
      have hok0 : StOK L.cfg st0 := ⟨hchains, hdumped, hsinks, hpsink⟩
      obtain ⟨⟨hchains', hdumped', hsinks', hpsink'⟩, hlen'⟩ :=
        lookupGo_ok L.cfg L.tagger ids (List.range L.BATCH_SIZE) st0 st hgo hok0
      refine ⟨⟨?_, hdumped', hsinks', hpsink'⟩, rfl, ?_, rfl, rfl⟩
      · intro ch hmem
        exact hchains' ch (dellist_sub st.queue st.dump_idxs ch hmem)
      · calc (dellist st.queue st.dump_idxs).length ≤ st.queue.length :=
              dellist_len_le _ _
          _ = st0.queue.length := hlen'
          _ = L.queue.length := rfl

/-- The `while` loop around `lookup` preserves the invariant and leaves
the queue strictly below capacity whenever it exits normally. -/
theorem lookupWhile_ok :
    ∀ (fuel : Nat) (L L' : Listener) (b : Bool),
      lookupWhile fuel L = .ok (some (L', b)) → LOK L →
      L.queue.length ≤ L.BATCH_SIZE →
      LOK L' ∧ L'.queue.length < L'.BATCH_SIZE ∧
      L'.BATCH_SIZE = L.BATCH_SIZE ∧ L'.cfg = L.cfg := by
  intro fuel
  induction fuel with
  | zero =>
    intro L L' b h hok hlen
    unfold lookupWhile at h
    by_cases hq : L.queue.length = L.BATCH_SIZE
    · rw [if_pos hq] at h; cases h
    · rw [if_neg hq] at h
      cases h
      exact ⟨hok, by omega, rfl, rfl⟩
  | succ f ih =>
    intro L L' b h hok hlen
    unfold lookupWhile at h
    by_cases hq : L.queue.length = L.BATCH_SIZE
    · rw [if_pos hq] at h
      cases hlk : lookup L with
      | error e => rw [hlk] at h; cases h
      | ok p =>
        obtain ⟨L2, b2⟩ := p
        rw [hlk] at h
        dsimp only at h
        obtain ⟨hok2, hb2, hlen2, hB2, hcfg2⟩ := lookup_ok L L2 b2 hlk hok
        subst hb2
        rw [if_pos rfl] at h
        obtain ⟨hok', hlt', hB', hcfg'⟩ := ih L2 L' b h hok2 (by omega)
        exact ⟨hok', hlt', by rw [hB', hB2], by rw [hcfg', hcfg2]⟩
    · rw [if_neg hq] at h
      cases h
      exact ⟨hok, by omega, rfl, rfl⟩

/-- When a reply passes every filter stage, `on_status` is exactly: append
the one-element chain, add the id, then run the capacity loop. -/
theorem on_status_accepted (fuel : Nat) (L : Listener) (raw : RawStatus)
    (hr : raw.in_reply_to.isSome = true) (ha : ingestAccept L raw = true) :
    on_status fuel L raw = lookupWhile fuel (appended L raw) := by
  unfold ingestAccept at ha
  rw [Bool.and_eq_true, Bool.and_eq_true, Bool.and_eq_true] at ha
  obtain ⟨⟨⟨hck, hnd⟩, hnl⟩, hlc⟩ := ha
  unfold on_status
  cases hrr : raw.in_reply_to with
  | none => rw [hrr] at hr; simp at hr
  | some p =>
    dsimp only
    rw [hck, hnd, hnl, hlc]
    rfl

/-- `on_status` steps preserve the listener invariant and the
below-capacity bound. -/
theorem on_status_ok (fuel : Nat) (L : Listener) (raw : RawStatus)
    (L' : Listener) (b : Bool)
    (h : on_status fuel L raw = .ok (some (L', b))) (hok : LOK L)
    (hlen : L.queue.length < L.BATCH_SIZE) :
    LOK L' ∧ L'.queue.length < L'.BATCH_SIZE ∧
    L'.BATCH_SIZE = L.BATCH_SIZE ∧ L'.cfg = L.cfg := by
  unfold on_status at h
  cases hrr : raw.in_reply_to with
  | none =>
    rw [hrr] at h
    dsimp only at h
    cases h
    exact ⟨hok, hlen, rfl, rfl⟩
  | some p =>
    rw [hrr] at h
    dsimp only at h
    by_cases hck : check (ingestText L raw)
    · rw [hck] at h
      simp only [if_true] at h
      by_cases hnd : need_check L.cfg.need
          (parse L.tagger (String.mk (normalize (ingestText L raw)))).2 &&
          needless_check L.cfg.needless
            (parse L.tagger (String.mk (normalize (ingestText L raw)))).2
      · rw [hnd] at h
        simp only [if_true] at h
        by_cases hlc : length_check L.cfg.lenMin L.cfg.lenMax
            (dump_filter L.cfg.dump
              (parse L.tagger (String.mk (normalize (ingestText L raw)))).1
              (parse L.tagger (String.mk (normalize (ingestText L raw)))).2).1
        · rw [hlc] at h
          simp only [if_true] at h
          have hokApp : LOK (appended L raw) := by
            obtain ⟨hchains, hdumped, hsinks, hpsink⟩ := hok
            refine ⟨?_, hdumped, hsinks, hpsink⟩
            intro ch hmem
            unfold appended at hmem
            dsimp only at hmem
            rcases List.mem_append.mp hmem with hmem | hmem
            · exact hchains ch hmem
            · rcases List.mem_singleton.mp hmem with rfl
              exact ⟨by simp, altUsers_singleton _⟩
          have hlenApp : (appended L raw).queue.length ≤
              (appended L raw).BATCH_SIZE := by
            unfold appended
            dsimp only
            simp only [List.length_append, List.length_singleton]
            omega
          obtain ⟨hok', hlt', hB', hcfg'⟩ :=
            lookupWhile_ok fuel (appended L raw) L' b h hokApp hlenApp
          exact ⟨hok', hlt', hB', hcfg'⟩
        · rw [Bool.not_eq_true] at hlc
          rw [hlc] at h
          simp only [Bool.false_eq_true, if_false] at h
          cases h
          exact ⟨hok, hlen, rfl, rfl⟩
      · rw [Bool.not_eq_true] at hnd
        rw [hnd] at h
        simp only [Bool.false_eq_true, if_false] at h
        cases h
        exact ⟨hok, hlen, rfl, rfl⟩
    · rw [Bool.not_eq_true] at hck
      rw [hck] at h
      simp only [Bool.false_eq_true, if_false] at h
      cases h
      exact ⟨hok, hlen, rfl, rfl⟩

/-- The run invariant: every reachable state satisfies `LOK` and stays
strictly below capacity between messages, with capacity and configuration
fixed. -/
theorem reach_inv (L0 L : Listener) (h0 : InitLike L0) (hr : Reachable L0 L) :
    LOK L ∧ L.queue.length < L.BATCH_SIZE ∧
    L.BATCH_SIZE = L0.BATCH_SIZE ∧ L.cfg = L0.cfg := by
  obtain ⟨hq0, ht0, hr0, hp0, hd0, hB0⟩ := h0
  induction hr with
  | refl =>
    refine ⟨⟨?_, ?_, ?_, ?_⟩, ?_, rfl, rfl⟩
    · intro ch hmem; rw [hq0] at hmem; simp at hmem
    · intro ch hmem; rw [hd0] at hmem; simp at hmem
    · rw [ht0, hr0]
    · intro _; rw [hp0, ht0]
    · rw [hq0]; simpa using hB0
  | step hreach hstep ih =>
    obtain ⟨hok, hlen, hB, hcfg⟩ := ih
    obtain ⟨hok', hlen', hB', hcfg'⟩ := on_status_ok _ _ _ _ _ hstep hok hlen
    exact ⟨hok', hlen', by rw [hB', hB], by rw [hcfg', hcfg]⟩

/-! ## Claim theorems: C3, C4, C5, C10 -/

/-- C3: every chain a run ever hands to `dump_data` is a strict two-party
alternation — adjacent author ids differ, and each author id equals the
one two positions back. -/
theorem C3_dumped_alternation (L0 L : Listener) (h0 : InitLike L0)
    (hr : Reachable L0 L) :
    ∀ ch ∈ L.dumpedChains, TwoPartyAlt (ch.map (fun e => e.user)) := by
  intro ch hmem
  obtain ⟨⟨-, hdumped, -, -⟩, -, -, -⟩ := reach_inv L0 L h0 hr
  exact altUsers_twoParty _ (hdumped ch hmem)

/-- C4: the in-flight queue never exceeds the batch capacity — strictly
below it between messages, at most at capacity right after the append —
and `resolveBatch` (the `while`-loop around `lookup`) runs exactly when
the append brings the queue to capacity: below capacity the message is
only appended and no lookup happens. -/
theorem C4_batch_capacity (L0 L : Listener) (h0 : InitLike L0)
    (hr : Reachable L0 L) :
    L.queue.length < L.BATCH_SIZE ∧
    ∀ (raw : RawStatus) (fuel : Nat), raw.in_reply_to.isSome = true →
      ingestAccept L raw = true →
      (appended L raw).queue.length ≤ L.BATCH_SIZE ∧
      on_status fuel L raw = lookupWhile fuel (appended L raw) ∧
      ((appended L raw).queue.length ≠ L.BATCH_SIZE →
        on_status fuel L raw = .ok (some (appended L raw, true))) := by
  obtain ⟨-, hlen, -, -⟩ := reach_inv L0 L h0 hr
  refine ⟨hlen, ?_⟩
  intro raw fuel hrr ha
  have happ : (appended L raw).queue.length = L.queue.length + 1 := by
    unfold appended; simp
  refine ⟨by omega, on_status_accepted fuel L raw hrr ha, ?_⟩
  intro hne
  rw [on_status_accepted fuel L raw hrr ha]
  have hBapp : (appended L raw).BATCH_SIZE = L.BATCH_SIZE := rfl
  cases fuel with
  | zero =>
    unfold lookupWhile
    rw [if_neg (by rw [hBapp]; exact hne)]
  | succ f =>
    unfold lookupWhile
    rw [if_neg (by rw [hBapp]; exact hne)]

/-- C5: `dump_data` on a chain of `n ≥ 2` entries reverses it to
chronological order and emits exactly `n-1` aligned line pairs — prompt
line `i` is utterance `i`'s space-joined filtered words, response line `i`
is utterance `i+1`'s, the part sink (when configured) gets the matching
tag line of utterance `i` — and `dump_count` grows by exactly `n-1`;
globally, the prompt and response sinks of every reachable state hold the
same number of lines, and so does the part sink when configured. -/
theorem C5_dump_pairing :
    (∀ (op : Bool) (dialog : Chain), 2 ≤ dialog.length →
      (dump_data op dialog).chrono = dialog.reverse ∧
      (dump_data op dialog).prompts.length = dialog.length - 1 ∧
      (dump_data op dialog).replies.length = dialog.length - 1 ∧
      (dump_data op dialog).inc = dialog.length - 1 ∧
      (op = true → (dump_data op dialog).partLines.length = dialog.length - 1) ∧
      (∀ i, i < dialog.length - 1 →
        (dump_data op dialog).prompts[i]? =
          some (sjoin (dialog.reverse.getD i default).words) ∧
        (dump_data op dialog).replies[i]? =
          some (sjoin (dialog.reverse.getD (i + 1) default).words) ∧
        (op = true → (dump_data op dialog).partLines[i]? =
          some (sjoin (dialog.reverse.getD i default).parts)))) ∧
    (∀ L0 L, InitLike L0 → Reachable L0 L →
      L.tweetSink.length = L.replySink.length ∧
      (L.cfg.outputPart = true → L.partSink.length = L.tweetSink.length)) := by
  constructor
  · intro op dialog _
    have hlenrev : dialog.reverse.length = dialog.length := by simp
    refine ⟨rfl, ?_, ?_, ?_, ?_, ?_⟩
    · simp [dump_data]
    · simp [dump_data]
    · simp [dump_data]
    · intro hop; simp [dump_data, hop]
    · intro i hi
      refine ⟨?_, ?_, ?_⟩
      · show ((List.range (dialog.reverse.length - 1)).map
          (fun i => sjoin (dialog.reverse.getD i default).words))[i]? = _
        rw [List.getElem?_map, List.getElem?_range (by omega)]
        rfl
      · show ((List.range (dialog.reverse.length - 1)).map
          (fun i => sjoin (dialog.reverse.getD (i + 1) default).words))[i]? = _
        rw [List.getElem?_map, List.getElem?_range (by omega)]
        rfl
      · intro hop
        show (if op = true then (List.range (dialog.reverse.length - 1)).map
            (fun i => sjoin (dialog.reverse.getD i default).parts)
          else [])[i]? = _
        rw [if_pos hop, List.getElem?_map, List.getElem?_range (by omega)]
        rfl
  · intro L0 L h0 hr
    obtain ⟨⟨-, -, hsinks, hpsink⟩, -, -, -⟩ := reach_inv L0 L h0 hr
    exact ⟨hsinks, hpsink⟩

/-! ## C10: no out-of-bounds access in `lookup` -/

/-- Chains in the queue are nonempty (the part of the invariant the
index-safety argument needs). -/
def NEChains (q : List Chain) : Prop := ∀ ch ∈ q, ch ≠ []

theorem collectIds_ok (q : List Chain) (h : NEChains q) :
    ∃ ids, collectIds q = .ok ids ∧ ids.length = q.length := by
  induction q with
  | nil => exact ⟨[], rfl, rfl⟩
  | cons ch rest ih =>
    obtain ⟨e, he⟩ : ∃ e, ch.getLast? = some e := by
      rw [List.getLast?_eq_getLast_of_ne_nil (h ch (List.mem_cons_self ch rest))]
      exact ⟨_, rfl⟩
    obtain ⟨ids, hids, hlen⟩ := ih (fun c hc => h c (List.mem_cons_of_mem ch hc))
    refine ⟨e.parent :: ids, ?_, by simp [hlen]⟩
    unfold collectIds
    rw [he, hids]

theorem talker_check_some (q : List Chain) (talker : Int) (idx : Nat)
    (hidx : idx < q.length) (hne : NEChains q) :
    ∃ t, talker_check q talker idx = .ok t := by
  unfold talker_check
  rw [List.getElem?_eq_getElem hidx]
  dsimp only
  have hmem : q[idx] ∈ q := List.getElem_mem hidx
  obtain ⟨e, he⟩ : ∃ e, q[idx].getLast? = some e := by
    rw [List.getLast?_eq_getLast_of_ne_nil (hne _ hmem)]
    exact ⟨_, rfl⟩
  rw [he]
  dsimp only
  by_cases h1 : talker = e.user
  · rw [if_pos h1]; exact ⟨false, rfl⟩
  rw [if_neg h1]
  by_cases h2 : q[idx].length = 1
  · rw [if_pos h2]; exact ⟨true, rfl⟩
  rw [if_neg h2]
  have hlen2 : 2 ≤ q[idx].length := by
    have : 0 < q[idx].length := List.length_pos.mpr (hne _ hmem)
    omega
  rw [List.getElem?_eq_getElem (show q[idx].length - 2 < q[idx].length by omega)]
  exact ⟨_, rfl⟩

theorem lookupExtend_not_idxerr (cfg : Config) (tagger : String → List Node)
    (key : Chars) (tweet? : Option DicRec) (st : LoopSt) (idx : Nat)
    (hidx : idx < st.queue.length) (hne : NEChains st.queue) :
    lookupExtend cfg tagger key tweet? st idx ≠ .error .indexError := by
  intro hcontra
  unfold lookupExtend at hcontra
  cases tweet? with
  | none => cases hcontra
  | some rec =>
    dsimp only at hcontra
    cases hrt : rec.text with
    | words ws =>
      rw [hrt] at hcontra
      cases hcontra
    | raw s =>
      rw [hrt] at hcontra
      dsimp only at hcontra
      by_cases hck : check s
      · rw [hck] at hcontra
        simp only [Bool.not_true, Bool.false_eq_true, if_false] at hcontra
        obtain ⟨t, htc⟩ := talker_check_some st.queue rec.user idx hidx hne
        rw [htc] at hcontra
        dsimp only at hcontra
        by_cases hti : t
        · subst hti
          simp only [Bool.not_true, Bool.false_eq_true, if_false] at hcontra
          by_cases hnc : need_check cfg.need
              (parse tagger (String.mk (normalize s))).2 &&
              needless_check cfg.needless
                (parse tagger (String.mk (normalize s))).2
          · rw [hnc] at hcontra
            simp only [Bool.not_true, Bool.false_eq_true, if_false] at hcontra
            by_cases hlc : length_check cfg.lenMin cfg.lenMax
                (dump_filter cfg.dump (parse tagger (String.mk (normalize s))).1
                  (parse tagger (String.mk (normalize s))).2).1
            · rw [hlc] at hcontra
              simp only [Bool.not_true, Bool.false_eq_true, if_false] at hcontra
              rw [List.getElem?_eq_getElem hidx] at hcontra
              cases hcontra
            · rw [Bool.not_eq_true] at hlc
              rw [hlc] at hcontra
              simp only [Bool.not_false, if_true] at hcontra
              cases hcontra
          · rw [Bool.not_eq_true] at hnc
            rw [hnc] at hcontra
            simp only [Bool.not_false, if_true] at hcontra
            cases hcontra
        · rw [Bool.not_eq_true] at hti
          subst hti
          simp only [Bool.not_false, if_true] at hcontra
          cases hcontra
      · rw [Bool.not_eq_true] at hck
        rw [hck] at hcontra
        simp only [Bool.not_false, if_true] at hcontra
        cases hcontra

theorem lookupExtend_ne (cfg : Config) (tagger : String → List Node)
    (key : Chars) (tweet? : Option DicRec) (st : LoopSt) (idx : Nat)
    (st1 : LoopSt) (intr : Bool)
    (h : lookupExtend cfg tagger key tweet? st idx = .ok (st1, intr))
    (hne : NEChains st.queue) : NEChains st1.queue := by
  obtain ⟨-, -, -, -, -, -, hq⟩ :=
    lookupExtend_ok cfg tagger key tweet? st idx st1 intr h
  rcases hq with hq | ⟨ch, rec, s, hch, -, hq⟩
  · rw [hq]; exact hne
  · rw [hq]
    intro ch' hmem
    rcases List.mem_or_eq_of_mem_set hmem with hmem | rfl
    · exact hne ch' hmem
    · simp

theorem lookupFinalize_queue (cfg : Config) (st1 : LoopSt) (idx : Nat)
    (st' : LoopSt) (h : lookupFinalize cfg st1 idx = .ok st') :
    st'.queue = st1.queue := by
  unfold lookupFinalize at h
  dsimp only at h
  cases hq : st1.queue[idx]? with
  | none => rw [hq] at h; cases h
  | some ch =>
    rw [hq] at h
    dsimp only at h
    by_cases hlen : 2 ≤ ch.length
    · rw [if_pos hlen] at h; cases h; rfl
    · rw [if_neg hlen] at h; cases h; rfl

theorem lookupStep_not_idxerr (cfg : Config) (tagger : String → List Node)
    (ids : List (Option Int)) (st : LoopSt) (idx : Nat)
    (hids : idx < ids.length) (hidx : idx < st.queue.length)
    (hne : NEChains st.queue) :
    (∃ st', lookupStep cfg tagger ids st idx = .ok st' ∧
       st'.queue.length = st.queue.length ∧ NEChains st'.queue) ∨
    lookupStep cfg tagger ids st idx = .error .typeError := by
  unfold lookupStep
  rw [List.getElem?_eq_getElem hids]
  dsimp only
  cases hext : lookupExtend cfg tagger (strOfOptInt ids[idx])
      ((st.dic.find? (fun kv =>
        kv.1 = strOfOptInt ids[idx])).map (fun kv => kv.2)) st idx with
  | error e =>
    cases e with
    | indexError =>
      exact absurd hext (lookupExtend_not_idxerr cfg tagger _ _ st idx hidx hne)
    | typeError => exact Or.inr rfl
    | valueError =>
      -- lookupExtend can only raise TypeError or IndexError
      exfalso
      revert hext
      unfold lookupExtend
      cases htw : (st.dic.find? (fun kv =>
          kv.1 = strOfOptInt ids[idx])).map (fun kv => kv.2) with
      | none => intro hh; cases hh
      | some rec =>
        dsimp only
        cases hrt : rec.text with
        | words ws => intro hh; cases hh
        | raw s =>
          dsimp only
          by_cases hck : check s
          · rw [hck]
            simp only [Bool.not_true, Bool.false_eq_true, if_false]
            cases htc : talker_check st.queue rec.user idx with
            | error e' =>
              obtain ⟨t, htc'⟩ := talker_check_some st.queue rec.user idx hidx hne
              rw [htc'] at htc
              cases htc
            | ok t =>
              dsimp only
              by_cases hti : t
              · subst hti
                simp only [Bool.not_true, Bool.false_eq_true, if_false]
                by_cases hnc : need_check cfg.need
                    (parse tagger (String.mk (normalize s))).2 &&
                    needless_check cfg.needless
                      (parse tagger (String.mk (normalize s))).2
                · rw [hnc]
                  simp only [Bool.not_true, Bool.false_eq_true, if_false]
                  by_cases hlc : length_check cfg.lenMin cfg.lenMax
                      (dump_filter cfg.dump
                        (parse tagger (String.mk (normalize s))).1
                        (parse tagger (String.mk (normalize s))).2).1
                  · rw [hlc]
                    simp only [Bool.not_true, Bool.false_eq_true, if_false]
                    rw [List.getElem?_eq_getElem hidx]
                    intro hh; cases hh
                  · rw [Bool.not_eq_true] at hlc
                    rw [hlc]
                    simp only [Bool.not_false, if_true]
                    intro hh; cases hh
                · rw [Bool.not_eq_true] at hnc
                  rw [hnc]
                  simp only [Bool.not_false, if_true]
                  intro hh; cases hh
              · rw [Bool.not_eq_true] at hti
                subst hti
                simp only [Bool.not_false, if_true]
                intro hh; cases hh
          · rw [Bool.not_eq_true] at hck
            rw [hck]
            simp only [Bool.not_false, if_true]
            intro hh; cases hh
  | ok p =>
    obtain ⟨st1, intr⟩ := p
    obtain ⟨-, -, -, -, -, hql, -⟩ :=
      lookupExtend_ok cfg tagger _ _ st idx st1 intr hext
    have hne1 : NEChains st1.queue :=
      lookupExtend_ne cfg tagger _ _ st idx st1 intr hext hne
    dsimp only
    by_cases hintr : intr
    · subst hintr
      rw [if_pos rfl]
      have hidx1 : idx < st1.queue.length := by omega
      have hfin : ∃ st', lookupFinalize cfg st1 idx = .ok st' := by
        unfold lookupFinalize
        dsimp only
        rw [List.getElem?_eq_getElem hidx1]
        dsimp only
        by_cases hlen : 2 ≤ st1.queue[idx].length
        · rw [if_pos hlen]; exact ⟨_, rfl⟩
        · rw [if_neg hlen]; exact ⟨_, rfl⟩
      obtain ⟨st', hst'⟩ := hfin
      have hq' : st'.queue = st1.queue := lookupFinalize_queue cfg st1 idx st' hst'
      exact Or.inl ⟨st', hst', by rw [hq']; omega, by rw [hq']; exact hne1⟩
    · rw [Bool.not_eq_true] at hintr
      subst hintr
      simp only [Bool.false_eq_true, if_false]
      exact Or.inl ⟨st1, rfl, by omega, hne1⟩

theorem lookupGo_not_idxerr (cfg : Config) (tagger : String → List Node)
    (ids : List (Option Int)) :
    ∀ (idxs : List Nat) (st : LoopSt),
      (∀ i ∈ idxs, i < ids.length ∧ i < st.queue.length) →
      NEChains st.queue →
      (∃ st', lookupGo cfg tagger ids idxs st = .ok st') ∨
      (∃ e, lookupGo cfg tagger ids idxs st = .error e ∧ e = .typeError) := by
  intro idxs
  induction idxs with
  | nil => intro st _ _; exact Or.inl ⟨st, rfl⟩
  | cons idx rest ih =>
    intro st hbound hne
    obtain ⟨hids, hidx⟩ := hbound idx (List.mem_cons_self idx rest)
    rcases lookupStep_not_idxerr cfg tagger ids st idx hids hidx hne with
      ⟨st1, hstep, hlen1, hne1⟩ | hstep
    · have hbound1 : ∀ i ∈ rest, i < ids.length ∧ i < st1.queue.length := by
        intro i hi
        obtain ⟨h1, h2⟩ := hbound i (List.mem_cons_of_mem idx hi)
        exact ⟨h1, by omega⟩
      rcases ih st1 hbound1 hne1 with ⟨st', hgo⟩ | ⟨e, hgo, he⟩
      · refine Or.inl ⟨st', ?_⟩
        unfold lookupGo
        rw [hstep]
        exact hgo
      · refine Or.inr ⟨e, ?_, he⟩
        unfold lookupGo
        rw [hstep]
        exact hgo
    · refine Or.inr ⟨.typeError, ?_, rfl⟩
      unfold lookupGo
      rw [hstep]
      rfl

/-- C10: when `lookup` runs with the queue at capacity (`len(queue) ==
BATCH_SIZE`, one collected id per nonempty chain — exactly the situation
`on_status` invokes it in), every index `0..B-1` used on the queue and the
id list is in range, so the batch loop never raises `IndexError`. -/
theorem C10_no_index_error (L : Listener)
    (hq : L.queue.length = L.BATCH_SIZE) (hne : ∀ ch ∈ L.queue, ch ≠ []) :
    lookup L ≠ .error .indexError := by
  intro hcontra
  unfold lookup at hcontra
  obtain ⟨ids, hids, hlenids⟩ := collectIds_ok L.queue hne
  rw [hids] at hcontra
  dsimp only [bind, Except.bind] at hcontra
  have hbound : ∀ i ∈ List.range L.BATCH_SIZE,
      i < ids.length ∧ i <
        (({ queue := L.queue, tweet_ids := L.tweet_ids
          , dic := ((L.api ids).map (fun r =>
              (intChars r.id,
                ({ parent := r.in_reply_to, user := r.user
                 , text := TextVal.raw (del_username (L.nfkc r.text).data)
                 , id := r.id } : DicRec)))).reverse
          , dump_idxs := []
          , tweetSink := L.tweetSink, replySink := L.replySink
          , partSink := L.partSink, dump_count := L.dump_count
          , dumpedChains := L.dumpedChains } : LoopSt)).queue.length := by
    intro i hi
    have := List.mem_range.mp hi
    constructor
    · omega
    · show i < L.queue.length
      omega
  rcases lookupGo_not_idxerr L.cfg L.tagger ids (List.range L.BATCH_SIZE) _
      hbound hne with ⟨st', hgo⟩ | ⟨e, hgo, he⟩
  · rw [hgo] at hcontra
    cases hcontra
  · subst he
    rw [hgo] at hcontra
    cases hcontra

/-! ## C1: seen ids and re-admission -/

/-- C1 amended: the seen set does not gate admission.  (1) `on_status`
never consults `tweet_ids` before enqueueing: any reply passing the
filters is appended as a new chain and its id added, whether or not the
id is already seen.  (2) In the batch loop, a looked-up parent that
passes the filters and the alternation check is appended to its chain
even when its id is already in the seen set; seen-ness only forces
`interrupte`, so the chain is finalized — and, holding a dialogue, dumped
— right after the extension. -/
theorem C1_seen_readmission :
    (∀ (L : Listener) (raw : RawStatus) (fuel : Nat),
      raw.in_reply_to.isSome = true → ingestAccept L raw = true →
      on_status fuel L raw = lookupWhile fuel (appended L raw) ∧
      (appended L raw).queue = L.queue ++ [[ingestEntry L raw]] ∧
      (appended L raw).tweet_ids = pySetAdd L.tweet_ids raw.id) ∧
    (∀ (cfg : Config) (tagger : String → List Node) (ids : List (Option Int))
       (st : LoopSt) (idx : Nat) (pv : Option Int) (rec : DicRec) (s : Chars)
       (ch : Chain),
      ids[idx]? = some pv →
      (st.dic.find? (fun kv => kv.1 = strOfOptInt pv)).map (fun kv => kv.2) =
        some rec →
      rec.text = .raw s →
      check s = true →
      talker_check st.queue rec.user idx = .ok true →
      (need_check cfg.need (parse tagger (String.mk (normalize s))).2 &&
        needless_check cfg.needless
          (parse tagger (String.mk (normalize s))).2) = true →
      length_check cfg.lenMin cfg.lenMax
        (dump_filter cfg.dump (parse tagger (String.mk (normalize s))).1
          (parse tagger (String.mk (normalize s))).2).1 = true →
      st.queue[idx]? = some ch → ch ≠ [] →
      rec.id ∈ st.tweet_ids →
      ∃ st', lookupStep cfg tagger ids st idx = .ok st' ∧
        st'.queue = st.queue.set idx (ch ++ [lookupEntry cfg tagger rec s]) ∧
        st'.dump_idxs = st.dump_idxs ++ [idx] ∧
        st'.dumpedChains = st.dumpedChains ++
          [(ch ++ [lookupEntry cfg tagger rec s]).reverse]) := by
  constructor
  · intro L raw fuel hr ha
    exact ⟨on_status_accepted fuel L raw hr ha, rfl, rfl⟩
  · intro cfg tagger ids st idx pv rec s ch hids hfind hrt hck htc hnc hlc hch
      hchne hseen
    have hidxlt : idx < st.queue.length := (List.getElem?_eq_some_iff.mp hch).1
    unfold lookupStep
    rw [hids]
    dsimp only
    rw [hfind]
    unfold lookupExtend
    dsimp only
    rw [hrt]
    dsimp only
    rw [hck]
    simp only [Bool.not_true, Bool.false_eq_true, if_false]
    rw [htc]
    dsimp only
    simp only [Bool.not_true, Bool.false_eq_true, if_false]
    rw [hnc]
    simp only [Bool.not_true, Bool.false_eq_true, if_false]
    rw [hlc]
    simp only [Bool.not_true, Bool.false_eq_true, if_false]
    rw [hch]
    dsimp only
    have hcont : st.tweet_ids.contains rec.id = true :=
      List.elem_eq_true_of_mem hseen
    rw [hcont]
    simp only [Bool.not_true, Bool.and_false, Bool.not_false, if_true]
    unfold lookupFinalize
    dsimp only
    rw [List.getElem?_set_eq_of_lt _ hidxlt]
    dsimp only
    rw [if_pos (by
      simp only [List.length_append, List.length_singleton]
      have : 0 < ch.length := List.length_pos.mpr hchne
      omega)]
    exact ⟨_, rfl, rfl, rfl, rfl⟩

/-! ### Concrete fixtures (a configuration admitting plain nouns, a
one-node tagger, NFKC as the identity on the fixture texts) -/

def exCfg : Config :=
  { need := [], needless := [], dump := [("noun_main", true)]
  , lenMin := 0, lenMax := 10, outputPart := true }

def exTagger : String → List Node :=
  fun _ => [{ surface := "こんにちは", featureRaw := "名詞,一般" }]

def exApiEmpty : List (Option Int) → List RawStatus := fun _ => []

/-- The listener `__init__` builds with this configuration and no
checkpoint file. -/
def exListener : Listener :=
  { cfg := exCfg, tagger := exTagger, nfkc := id, api := exApiEmpty
  , tweet_ids := [], queue := [], BATCH_SIZE := 100, dump_count := 0
  , tweetSink := [], replySink := [], partSink := [], dumpedChains := [] }

def exMsg : RawStatus :=
  { in_reply_to := some 7, user := 1, text := "こんにちは", id := 101 }

def exL1 : Listener :=
  match on_status 1 exListener exMsg with
  | .ok (some p) => p.1
  | _ => exListener

def exL2 : Listener :=
  match on_status 1 exL1 exMsg with
  | .ok (some p) => p.1
  | _ => exL1

/-- C1 counterexample: the very same reply delivered twice is admitted
twice.  After the first `on_status` its id 101 is in the seen set, yet the
second `on_status` appends a second chain — `ingest` does not reject a
message whose id is already in SeenSet, and it changes state. -/
theorem C1_counterexample :
    initListener exCfg exTagger id exApiEmpty .absent = .ok exListener ∧
    on_status 1 exListener exMsg = .ok (some (exL1, true)) ∧
    (101 : Int) ∈ exL1.tweet_ids ∧
    on_status 1 exL1 exMsg = .ok (some (exL2, true)) ∧
    exL2.queue.length = 2 ∧
    (exL2.queue.getD 1 []).map (fun e => e.id) = [101] := by
  refine ⟨rfl, rfl, by decide, rfl, rfl, rfl⟩

/-- C1 witness fixtures: a loop state whose single chain requests parent
id 7, with 7 already seen. -/
def wRec : DicRec :=
  { parent := none, user := 3, text := .raw "こんにちは".data, id := 7 }

def wChain : Chain :=
  [{ parent := some 7, user := 1, words := ["こんにちは"], id := 101
   , parts := ["noun_main"] }]

def wSt : LoopSt :=
  { queue := [wChain], tweet_ids := [7, 101]
  , dic := [(intChars 7, wRec)], dump_idxs := []
  , tweetSink := [], replySink := [], partSink := [], dump_count := 0
  , dumpedChains := [] }

theorem C1_seen_readmission_witness :
    (on_status 1 exListener exMsg = lookupWhile 1 (appended exListener exMsg) ∧
      (appended exListener exMsg).queue =
        exListener.queue ++ [[ingestEntry exListener exMsg]] ∧
      (appended exListener exMsg).tweet_ids =
        pySetAdd exListener.tweet_ids exMsg.id) ∧
    (∃ st', lookupStep exCfg exTagger [some 7] wSt 0 = .ok st' ∧
      st'.queue = wSt.queue.set 0
        (wChain ++ [lookupEntry exCfg exTagger wRec "こんにちは".data]) ∧
      st'.dump_idxs = wSt.dump_idxs ++ [0] ∧
      st'.dumpedChains = wSt.dumpedChains ++
        [(wChain ++ [lookupEntry exCfg exTagger wRec "こんにちは".data]).reverse]) := by
  constructor
  · exact C1_seen_readmission.1 exListener exMsg 1 rfl rfl
  · exact C1_seen_readmission.2 exCfg exTagger [some 7] wSt 0 (some 7) wRec
      "こんにちは".data wChain rfl rfl rfl rfl rfl rfl rfl rfl (by decide)
      (by decide)

/-! ## C2: duplicate parent ids crash the batch -/

def dupParent : RawStatus :=
  { in_reply_to := none, user := 3, text := "こんにちは", id := 7 }

def dupChain (p : Int) (u : Int) (i : Int) : Chain :=
  [{ parent := some p, user := u, words := ["こんにちは"], id := i
   , parts := ["noun_main"] }]

/-- A full batch in which the first two chains both request parent id 7
(the other 98 request an id the lookup service does not return). -/
def dupListener : Listener :=
  { exListener with
    api := fun _ => [dupParent]
    , queue := dupChain 7 1 101 :: dupChain 7 2 102 ::
        List.replicate 98 (dupChain 999 5 103) }

/-- The same batch with only one chain requesting parent id 7. -/
def aloneListener : Listener :=
  { exListener with
    api := fun _ => [dupParent]
    , queue := dupChain 7 1 101 :: List.replicate 99 (dupChain 999 5 103) }

/-- C2: two chains sharing a parent id crash the whole batch.  Processing
the first chain overwrites the shared `replys_dic` record's text slot with
the parsed word list, so the second chain's `check` runs `re.search` on a
list and raises `TypeError` (first conjunct); with no duplicate the very
same batch completes normally (second conjunct). -/
theorem C2_duplicate_parent_crash :
    lookup dupListener = .error .typeError ∧
    (∃ p, lookup aloneListener = .ok p) := by
  exact ⟨rfl, ⟨_, rfl⟩⟩

/-! ## Witness runs -/

def wParent8 : RawStatus :=
  { in_reply_to := none, user := 4, text := "こんにちは", id := 8 }

/-- A capacity-2 run whose second message fills the batch: both chains are
extended by their (final) parents and dumped. -/
def wL0 : Listener :=
  { exListener with BATCH_SIZE := 2, api := fun _ => [dupParent, wParent8] }

def wMsg2 : RawStatus :=
  { in_reply_to := some 8, user := 2, text := "こんにちは", id := 102 }

def wL1 : Listener :=
  match on_status 2 wL0 exMsg with
  | .ok (some p) => p.1
  | _ => wL0

def wL2 : Listener :=
  match on_status 2 wL1 wMsg2 with
  | .ok (some p) => p.1
  | _ => wL1

def wDump : Chain := wL2.dumpedChains.getD 0 []

theorem C3_dumped_alternation_witness :
    TwoPartyAlt (wDump.map (fun e => e.user)) :=
  C3_dumped_alternation wL0 wL2 ⟨rfl, rfl, rfl, rfl, rfl, by decide⟩
    (.step
      (.step .refl
        (show on_status 2 wL0 exMsg = .ok (some (wL1, true)) from rfl))
      (show on_status 2 wL1 wMsg2 = .ok (some (wL2, true)) from rfl))
    wDump (by decide)

theorem C4_batch_capacity_witness :
    exListener.queue.length < exListener.BATCH_SIZE ∧
    (appended exListener exMsg).queue.length ≤ exListener.BATCH_SIZE ∧
    on_status 1 exListener exMsg = lookupWhile 1 (appended exListener exMsg) ∧
    ((appended exListener exMsg).queue.length ≠ exListener.BATCH_SIZE →
      on_status 1 exListener exMsg = .ok (some (appended exListener exMsg, true))) := by
  obtain ⟨h1, h2⟩ := C4_batch_capacity exListener exListener
    ⟨rfl, rfl, rfl, rfl, rfl, by decide⟩ .refl
  obtain ⟨h3, h4, h5⟩ := h2 exMsg 1 rfl rfl
  exact ⟨h1, h3, h4, h5⟩

def wE1 : Entry :=
  { parent := some 7, user := 1, words := ["こんにちは"], id := 101
  , parts := ["noun_main"] }

def wE2 : Entry :=
  { parent := none, user := 3, words := ["はい"], id := 7
  , parts := ["noun_main"] }

def wDialog : Chain := [wE1, wE2]

theorem C5_dump_pairing_witness :
    ((dump_data true wDialog).chrono = wDialog.reverse ∧
      (dump_data true wDialog).prompts.length = wDialog.length - 1 ∧
      (dump_data true wDialog).replies.length = wDialog.length - 1 ∧
      (dump_data true wDialog).inc = wDialog.length - 1 ∧
      (dump_data true wDialog).partLines.length = wDialog.length - 1 ∧
      (dump_data true wDialog).prompts[0]? =
        some (sjoin (wDialog.reverse.getD 0 default).words) ∧
      (dump_data true wDialog).replies[0]? =
        some (sjoin (wDialog.reverse.getD 1 default).words) ∧
      (dump_data true wDialog).partLines[0]? =
        some (sjoin (wDialog.reverse.getD 0 default).parts)) ∧
    (wL2.tweetSink.length = wL2.replySink.length ∧
      wL2.partSink.length = wL2.tweetSink.length) := by
  obtain ⟨ha, hb⟩ := C5_dump_pairing
  obtain ⟨hc, hp, hr, hi, hpart, hidx⟩ := ha true wDialog (by decide)
  obtain ⟨h6, h7, h8⟩ := hidx 0 (by decide)
  obtain ⟨hs, hp2⟩ := hb wL0 wL2 ⟨rfl, rfl, rfl, rfl, rfl, by decide⟩
    (.step
      (.step .refl
        (show on_status 2 wL0 exMsg = .ok (some (wL1, true)) from rfl))
      (show on_status 2 wL1 wMsg2 = .ok (some (wL2, true)) from rfl))
  exact ⟨⟨hc, hp, hr, hi, hpart rfl, h6, h7, h8 rfl⟩, hs, hp2 rfl⟩

def w10L : Listener :=
  { exListener with BATCH_SIZE := 1, queue := [dupChain 7 1 101] }

theorem C10_no_index_error_witness :
    lookup w10L ≠ .error .indexError :=
  C10_no_index_error w10L rfl (by decide)

end TwiCommon
